import Mathlib

/-!
Verification of the ocmonitor workflow-grouping / live-selection engine.

This file gives a shallow embedding, in Lean 4, of the parts of the
ocmonitor Python code base that the specification's claims talk about:

* `ocmonitor/models/session.py`   — `TokenUsage`, `TimeData`,
  `InteractionFile` (incl. `calculate_cost`), `SessionData`;
* `ocmonitor/models/workflow.py`  — `SessionWorkflow`;
* `ocmonitor/services/agent_registry.py` — `AgentRegistry`;
* `ocmonitor/services/session_grouper.py` — `SessionGrouper`;
* `ocmonitor/services/live_monitor.py` — workflow selection and the
  per-poll bookkeeping of the two monitoring loops;
* `ocmonitor/config.py`           — `merge_model_prices`;
* `ocmonitor/services/price_fetcher.py` — `get_remote_payload`;
* `ocmonitor/utils/sqlite_utils.py` — `parse_message_data`,
  `load_session_data`.

Conventions of the embedding:

* Python `datetime` values are represented by their epoch timestamps.
  Message timestamps (`time.created` / `time.completed`) are integers in
  milliseconds, exactly as stored; `datetime` comparison in the source is
  order-isomorphic to integer comparison of the underlying milliseconds,
  so derived values such as `SessionData.start_time` are kept in
  milliseconds.  `datetime.min` (used as a sort key for missing start
  times) is modelled by ordering `Option Int` with `none` as bottom.
* Python `float`/`Decimal` arithmetic on costs and activity keys is
  modelled with `ℚ` (all the arithmetic involved is exact).
* Python `dict` objects (insertion ordered) are modelled as association
  lists: assignment to an existing key updates the entry in place,
  assignment to a fresh key appends.
* Python `sorted` is a stable ascending sort; it is modelled by a stable
  insertion sort (`pySort`).  `max(xs, key=k)` returns the first element
  with maximal key and is modelled by `pyMax`.
-/

set_option autoImplicit false

namespace OCMonitor

/-! ## Python `dict`, `sorted` and `max` helpers -/

/-- First value stored under key `k` (Python `d.get(k)` / `d[k]`). -/
def dictGet {V : Type} (d : List (String × V)) (k : String) : Option V :=
  match d with
  | [] => none
  | (k', v) :: t => if k' = k then some v else dictGet t k

/-- Python `k in d`. -/
def dictContains {V : Type} (d : List (String × V)) (k : String) : Bool :=
  (dictGet d k).isSome

/-- Python `d[k] = v`: update the entry in place if the key exists,
append otherwise. -/
def dictSet {V : Type} (d : List (String × V)) (k : String) (v : V) :
    List (String × V) :=
  match d with
  | [] => [(k, v)]
  | (k', v') :: t => if k' = k then (k, v) :: t else (k', v') :: dictSet t k v

/-- In-place mutation of the value stored under `k` (Python
`d[k].method(...)`); leaves the dict unchanged when the key is absent. -/
def dictModify {V : Type} (d : List (String × V)) (k : String) (f : V → V) :
    List (String × V) :=
  match d with
  | [] => []
  | (k', v) :: t => if k' = k then (k', f v) :: t else (k', v) :: dictModify t k f

/-- Python `base.update(upd)` at the level of whole dicts:
overlay `upd`'s entries onto `base`. -/
def dictUpdate {V : Type} (base upd : List (String × V)) : List (String × V) :=
  upd.foldl (fun acc kv => dictSet acc kv.1 kv.2) base

/-- Keys of a dict, in order. -/
def dictKeys {V : Type} (d : List (String × V)) : List String :=
  d.map (·.1)

/-- Python `d.values()`. -/
def dictValues {V : Type} (d : List (String × V)) : List V :=
  d.map (·.2)

/-- Insert `a` in front of the first element `b` with `le a b`
(the insertion step of a stable ascending sort). -/
def insertSorted {α : Type} (le : α → α → Bool) (a : α) : List α → List α
  | [] => [a]
  | b :: t => if le a b then a :: b :: t else b :: insertSorted le a t

/-- Stable ascending sort, modelling Python `sorted(xs, key=...)`:
an element is placed before every later element whose key is
greater than or equal to its own. -/
def pySort {α : Type} (le : α → α → Bool) : List α → List α
  | [] => []
  | a :: t => insertSorted le a (pySort le t)

/-- Python `max(a :: l, key=key)` for a strict comparison `lt` on keys:
scan left to right keeping the current maximum, replacing it only on a
strictly greater key (so the first maximal element wins). -/
def pyMax {α β : Type} (lt : β → β → Bool) (key : α → β) (a : α) (l : List α) : α :=
  l.foldl (fun best x => if lt (key best) (key x) then x else best) a

/-- Ordering on optional timestamps with `none` playing the role of
`datetime.min` (the sort key `s.start_time or datetime.min`). -/
def optTimeLE : Option Int → Option Int → Bool
  | none, _ => true
  | some _, none => false
  | some a, some b => a ≤ b

/-- Strict version of `optTimeLE`. -/
def optTimeLT : Option Int → Option Int → Bool
  | none, none => false
  | none, some _ => true
  | some _, none => false
  | some a, some b => a < b

/-! ## Data model (`ocmonitor/models/session.py`) -/

/-- `TokenUsage`: the four non-negative token counters. -/
structure TokenUsage where
  input : Nat
  output : Nat
  cache_write : Nat
  cache_read : Nat
deriving DecidableEq, Repr

/-- `TokenUsage.total`. -/
def TokenUsage.total (t : TokenUsage) : Nat :=
  t.input + t.output + t.cache_write + t.cache_read

/-- `TimeData`: creation/completion timestamps in epoch milliseconds. -/
structure TimeData where
  created : Option Int
  completed : Option Int
deriving DecidableEq, Repr

/-- `InteractionFile`: one recorded model call.

`raw_cost` models `raw_data.get('cost')`, the only part of the opaque
`raw_data` mapping the embedded code reads.  `mtime` models the derived
`modification_time` property (the file's `st_mtime`, in epoch seconds);
for SQLite-sourced interactions the source stores a placeholder path and
never consults `modification_time`. -/
structure InteractionFile where
  session_id : String
  model_id : String
  tokens : TokenUsage
  time_data : Option TimeData
  project_path : Option String
  agent : Option String
  finish_reason : Option String
  raw_cost : Option ℚ
  mtime : Int
deriving DecidableEq, Repr

/-- `SessionData`: a complete session.  The derived properties
(`start_time`, `end_time`, `project_name`, `total_tokens`) are defined
below as functions of `files`, exactly as the source computes them. -/
structure SessionData where
  session_id : String
  parent_id : Option String
  is_sub_agent : Bool
  files : List InteractionFile
  session_title : Option String
  agent : Option String
deriving DecidableEq, Repr

/-- `SessionData.start_time`: earliest `created` timestamp among files
that carry one (milliseconds; the source takes the `min` of the derived
`created_datetime` values, which is order-isomorphic). -/
def SessionData.start_time (s : SessionData) : Option Int :=
  (s.files.filterMap (fun f => f.time_data.bind (·.created))).min?

/-- `SessionData.end_time`: latest `completed` timestamp among files
that carry one. -/
def SessionData.end_time (s : SessionData) : Option Int :=
  (s.files.filterMap (fun f => f.time_data.bind (·.completed))).max?

/-- `SessionData.total_tokens`: field-wise sum over files. -/
def SessionData.total_tokens (s : SessionData) : TokenUsage :=
  s.files.foldl
    (fun acc f =>
      ⟨acc.input + f.tokens.input, acc.output + f.tokens.output,
       acc.cache_write + f.tokens.cache_write, acc.cache_read + f.tokens.cache_read⟩)
    ⟨0, 0, 0, 0⟩

/-- Keep the non-empty project paths of a session's files
(Python truthiness: `if f.project_path` drops `None` and `""`). -/
def projectPaths (s : SessionData) : List String :=
  s.files.filterMap (fun f =>
    match f.project_path with
    | some p => if p = "" then none else some p
    | none => none)

/-- Distinct elements in order of first occurrence
(the iteration order of a `collections.Counter`). -/
def firstOccurrences (seen : List String) : List String → List String
  | [] => []
  | a :: t =>
    if seen.contains a then firstOccurrences seen t
    else a :: firstOccurrences (a :: seen) t

/-- `Counter(paths).most_common(1)[0][0]`: among distinct paths in
first-occurrence order, the first one with maximal count. -/
def mostCommonPath (paths : List String) : Option String :=
  match firstOccurrences [] paths with
  | [] => none
  | u :: us => some (pyMax (fun a b => a < b) (fun p => paths.count p) u us)

/-- Final path component (`pathlib.Path(p).name`). -/
def pathBasename (p : String) : String :=
  (p.splitOn "/").getLastD ""

/-- `SessionData.project_name`: basename of the most common non-empty
project path, `"Unknown"` when there is none. -/
def SessionData.project_name (s : SessionData) : String :=
  match mostCommonPath (projectPaths s) with
  | none => "Unknown"
  | some p => if p = "" then "Unknown" else pathBasename p

/-! ## Workflows (`ocmonitor/models/workflow.py`) -/

/-- `SessionWorkflow`: a main session plus its sub-agent sessions. -/
structure SessionWorkflow where
  workflow_id : String
  main_session : SessionData
  sub_agent_sessions : List SessionData
deriving DecidableEq, Repr

/-- `SessionWorkflow.start_time`: earliest known start time across the
main session and all sub-agents. -/
def SessionWorkflow.start_time (w : SessionWorkflow) : Option Int :=
  ((w.main_session :: w.sub_agent_sessions).filterMap (·.start_time)).min?

/-- `SessionWorkflow.end_time`: latest known end time across the main
session and all sub-agents. -/
def SessionWorkflow.end_time (w : SessionWorkflow) : Option Int :=
  ((w.main_session :: w.sub_agent_sessions).filterMap (·.end_time)).max?

/-- `SessionWorkflow.all_sessions`: main plus sub-agents, sorted by
start time (`start_time or datetime.min`). -/
def SessionWorkflow.all_sessions (w : SessionWorkflow) : List SessionData :=
  pySort (fun a b => optTimeLE a.start_time b.start_time)
    (w.main_session :: w.sub_agent_sessions)

/-! ## Agent registry (`ocmonitor/services/agent_registry.py`) -/

/-- Python `str.lower()`, as a character-wise map. -/
def pyLower (s : String) : String :=
  String.mk (s.data.map Char.toLower)

/-- `AgentRegistry`: the two name sets.  The source stores Python sets;
membership is all that is ever used, so they are modelled as lists. -/
structure AgentRegistry where
  main_agents : List String
  sub_agents : List String
deriving DecidableEq, Repr

/-- Built-in registry seed (`BUILTIN_MAIN_AGENTS` / `BUILTIN_SUB_AGENTS`). -/
def builtinRegistry : AgentRegistry :=
  ⟨["plan", "build"], ["explore"]⟩

/-- `_load_agents`: start from the built-ins, then overlay discovered
agent definitions, given as `(file stem, declared mode)` pairs.  A mode
of `"subagent"` adds the lowercased name to the sub-agent set,
`"primary"` to the main-agent set, anything else changes nothing. -/
def loadAgents (discovered : List (String × Option String)) : AgentRegistry :=
  discovered.foldl
    (fun reg nm =>
      let mode := pyLower (nm.2.getD "")
      if mode = "subagent" then
        { reg with sub_agents := reg.sub_agents ++ [pyLower nm.1] }
      else if mode = "primary" then
        { reg with main_agents := reg.main_agents ++ [pyLower nm.1] }
      else reg)
    builtinRegistry

/-- `AgentRegistry.is_sub_agent`. -/
def AgentRegistry.is_sub_agent (r : AgentRegistry) (agent_name : Option String) : Bool :=
  match agent_name with
  | none => false
  | some n => r.sub_agents.contains (pyLower n)

/-- `AgentRegistry.is_main_agent`. -/
def AgentRegistry.is_main_agent (r : AgentRegistry) (agent_name : Option String) : Bool :=
  match agent_name with
  | none => true
  | some n => r.main_agents.contains (pyLower n) || !r.sub_agents.contains (pyLower n)

/-! ## Session grouper (`ocmonitor/services/session_grouper.py`) -/

/-- The candidate loop of `_find_parent_session`: same-project mains
with a known start time at or before the sub-agent's start `t`. -/
def parentCandidates (sub : SessionData) (t : Int) (mains : List SessionData) :
    List SessionData :=
  mains.filter (fun m =>
    m.project_name == sub.project_name &&
      (match m.start_time with
       | none => false
       | some u => u ≤ t))

/-- `_find_parent_session`: the most recent same-project main session
that started at or before the sub-agent; `none` when the sub-agent has
no known start time or no candidate qualifies. -/
def findParentSession (sub : SessionData) (mains : List SessionData) :
    Option SessionData :=
  match sub.start_time with
  | none => none
  | some t =>
    match parentCandidates sub t mains with
    | [] => none
    | c :: cs => some (pyMax optTimeLT (fun s => s.start_time) c cs)

/-- A main session's fresh single-session workflow entry
(and the orphan promotion of a sub-agent). -/
def mkWorkflow (s : SessionData) : SessionWorkflow :=
  ⟨s.session_id, s, []⟩

/-- `workflows[parent.session_id].sub_agent_sessions.append(sub)`. -/
def appendSub (sub : SessionData) (w : SessionWorkflow) : SessionWorkflow :=
  { w with sub_agent_sessions := w.sub_agent_sessions ++ [sub] }

/-- One iteration of the sub-agent linking loop of `group_sessions`. -/
def attachSub (mains : List SessionData)
    (wfs : List (String × SessionWorkflow)) (sub : SessionData) :
    List (String × SessionWorkflow) :=
  match findParentSession sub mains with
  | some parent =>
    if dictContains wfs parent.session_id then
      dictModify wfs parent.session_id (appendSub sub)
    else
      dictSet wfs sub.session_id (mkWorkflow sub)
  | none => dictSet wfs sub.session_id (mkWorkflow sub)

/-- `SessionGrouper.group_sessions`: partition into mains and sub-agents
by the registry, seed a workflow per main, link each sub-agent (in
ascending start-time order) to its parent or promote it to a standalone
workflow, and return the workflows most-recent-first. -/
def groupSessions (reg : AgentRegistry) (sessions : List SessionData) :
    List SessionWorkflow :=
  let sub_agents := sessions.filter (fun s => reg.is_sub_agent s.agent)
  let main_sessions := sessions.filter (fun s => !reg.is_sub_agent s.agent)
  let mainsSorted := pySort (fun a b => optTimeLE a.start_time b.start_time) main_sessions
  let subsSorted := pySort (fun a b => optTimeLE a.start_time b.start_time) sub_agents
  let seeded := mainsSorted.map (fun m => (m.session_id, mkWorkflow m))
  let final := subsSorted.foldl (attachSub mainsSorted) seeded
  pySort (fun a b => optTimeLE b.start_time a.start_time) (dictValues final)

/-! ## Live monitor (`ocmonitor/services/live_monitor.py`) -/

/-- The SQLite workflow dictionary produced by
`SQLiteProcessor._build_workflow_dict`: its `all_sessions` entry is
always `[main_session] + sub_agents`, so only the two constituents are
stored here. -/
structure WorkflowDict where
  workflow_id : String
  main_session : SessionData
  sub_agents : List SessionData
deriving DecidableEq, Repr

/-- The `all_sessions` list of a SQLite workflow dict. -/
def WorkflowDict.all_sessions (w : WorkflowDict) : List SessionData :=
  w.main_session :: w.sub_agents

/-- `get_latest_activity` inside `_select_most_recent_workflow`: the
maximum `time_data.created` over the files of **every** session of the
workflow (main and sub-agents alike), starting from `0.0`; when no file
anywhere in the workflow carries a `created` timestamp, fall back to the
main session's `start_time` converted by `.timestamp()` to seconds
(hence the division by 1000), or `0.0` when that is unknown. -/
def getLatestActivity (w : WorkflowDict) : ℚ :=
  let cs := w.all_sessions.flatMap
    (fun s => s.files.filterMap (fun f => f.time_data.bind (·.created)))
  if cs.isEmpty then
    match w.main_session.start_time with
    | some ts => (ts : ℚ) / 1000
    | none => 0
  else
    cs.foldl (fun acc c => max acc (c : ℚ)) 0

/-- `LiveMonitor._select_most_recent_workflow` (the source raises on an
empty list, modelled as `none`; a single workflow is returned as is). -/
def selectMostRecentWorkflow : List WorkflowDict → Option WorkflowDict
  | [] => none
  | [w] => some w
  | w :: ws => some (pyMax (fun a b => a < b) getLatestActivity w ws)

/-- `get_latest_activity` inside `_select_most_recent_file_workflow`:
maximum file modification time across all sessions of the workflow,
starting from `0.0`. -/
def getLatestFileActivity (w : SessionWorkflow) : Int :=
  (w.all_sessions.flatMap (fun s => s.files.map (·.mtime))).foldl
    (fun acc m => max acc m) 0

/-- `LiveMonitor._select_most_recent_file_workflow`. -/
def selectMostRecentFileWorkflow : List SessionWorkflow → Option SessionWorkflow
  | [] => none
  | [w] => some w
  | w :: ws => some (pyMax (fun a b => a < b) getLatestFileActivity w ws)

/-- Session-id set of a file-based workflow. -/
def sessionIds (w : SessionWorkflow) : List String :=
  w.all_sessions.map (·.session_id)

/-- Session-id set of a SQLite workflow dict. -/
def WorkflowDict.sessionIds (w : WorkflowDict) : List String :=
  w.all_sessions.map (·.session_id)

/-- The loop state of `start_monitoring` (file-based monitoring):
the tracked active-workflow dict, the session-id set gathered from it on
the current poll (`tracked_session_ids`), the copy taken before it was
rebuilt (`prev_tracked`), and the displayed workflow. -/
structure FileMonState where
  active : List (String × SessionWorkflow)
  tracked : List String
  prevTracked : List String
  currentId : String
  current : SessionWorkflow
deriving DecidableEq, Repr

/-- One iteration of the polling loop of `start_monitoring`, given the
freshly grouped workflow list of this poll.  Returns the new state and
the session ids printed as "New sub-agent detected" on this poll.
Console output other than those events, and the dashboard update, carry
no state and are omitted. -/
def fileMonitorStep (st : FileMonState) (workflows : List SessionWorkflow) :
    FileMonState × List String :=
  if workflows.isEmpty then
    -- No data this poll: everything is left untouched and the
    -- detection diff runs against the unchanged current workflow.
    (st, (sessionIds st.current).filter (fun sid => !st.prevTracked.contains sid))
  else
    let newActive0 := workflows.filter (fun w => w.end_time.isNone)
    let newActive := if newActive0.isEmpty then workflows.take 1 else newActive0
    let newDict := newActive.foldl (fun acc w => dictSet acc w.workflow_id w) []
    let activeList := dictValues newDict
    let prevTracked := st.tracked
    let tracked := activeList.flatMap sessionIds
    match selectMostRecentFileWorkflow activeList with
    | some newCurrent =>
      let emitted := (sessionIds newCurrent).filter (fun sid => !prevTracked.contains sid)
      (⟨newDict, tracked, prevTracked, newCurrent.workflow_id, newCurrent⟩, emitted)
    | none =>
      -- Unreachable: the rebuilt dict is never empty here.
      (⟨newDict, tracked, prevTracked, st.currentId, st.current⟩,
        (sessionIds st.current).filter (fun sid => !prevTracked.contains sid))

/-- The loop state of `start_sqlite_workflow_monitoring`: the active
workflow dict, `tracked_session_ids`, and the displayed workflow. -/
structure SqliteMonState where
  active : List (String × WorkflowDict)
  tracked : List String
  currentId : String
  current : WorkflowDict
deriving DecidableEq, Repr

/-- One iteration of the polling loop of
`start_sqlite_workflow_monitoring`, given the freshly loaded active
workflows of this poll.  Returns the new state and the session ids
printed as "New sub-agent detected".  Note the source rebuilds
`tracked_session_ids` from the new workflow set *before* diffing the
displayed workflow's sessions against it. -/
def sqliteMonitorStep (st : SqliteMonState) (newWfs : List WorkflowDict) :
    SqliteMonState × List String :=
  let st1 :=
    if newWfs.isEmpty then st
    else
      let newDict := newWfs.foldl (fun acc w => dictSet acc w.workflow_id w) []
      let activeList := dictValues newDict
      let tracked := activeList.flatMap WorkflowDict.sessionIds
      match selectMostRecentWorkflow activeList with
      | some newCurrent => ⟨newDict, tracked, newCurrent.workflow_id, newCurrent⟩
      | none => ⟨newDict, tracked, st.currentId, st.current⟩
  let newIds := st1.current.sessionIds
  let emitted := newIds.filter (fun sid => !st1.tracked.contains sid)
  let st2 :=
    if emitted.isEmpty then st1
    else { st1 with tracked := st1.tracked ++ newIds.filter (fun sid => !st1.tracked.contains sid) }
  (st2, emitted)

/-! ## Pricing merge (`ocmonitor/config.py`) -/

/-- The overlay loop of `merge_model_prices` (it appears verbatim for
the local and for the user source): for a model already present, update
its record field-wise; otherwise add the record wholesale. -/
def overlayRecords {V : Type}
    (merged : List (String × List (String × V)))
    (src : List (String × List (String × V))) :
    List (String × List (String × V)) :=
  src.foldl
    (fun acc md =>
      match dictGet acc md.1 with
      | some existing => dictSet acc md.1 (dictUpdate existing md.2)
      | none => dictSet acc md.1 md.2)
    merged

/-- `merge_model_prices`: three-way, field-level merge of raw pricing
dicts with ascending precedence remote → local → user.  Generic in the
type of field values. -/
def mergeModelPrices {V : Type}
    (local_raw user_raw remote_raw : List (String × List (String × V))) :
    List (String × List (String × V)) :=
  let merged : List (String × List (String × V)) :=
    remote_raw.foldl (fun acc md => dictSet acc md.1 md.2) []
  let merged := overlayRecords merged local_raw
  let merged := overlayRecords merged user_raw
  merged

/-- Effective value of field `f` of model `m` in a raw pricing dict. -/
def modelFieldLookup {V : Type} (d : List (String × List (String × V)))
    (m f : String) : Option V :=
  (dictGet d m).bind (fun record => dictGet record f)

/-- `a or b` on options (first defined value wins). -/
def optOr {V : Type} : Option V → Option V → Option V
  | some v, _ => some v
  | none, b => b

/-- A raw pricing dict is well formed when its model keys are distinct
and so are the field keys of every record (true of any dict obtained
from parsed JSON). -/
def WellFormedPricing {V : Type} (d : List (String × List (String × V))) : Prop :=
  (dictKeys d).Nodup ∧ ∀ kv ∈ d, (dictKeys kv.2).Nodup

/-! ## Per-interaction cost (`InteractionFile.calculate_cost`) -/

/-- `ModelPricing` (per-million prices; `context_window` and
`session_quota` are carried along but unused by cost calculation). -/
structure ModelPricing where
  input : ℚ
  output : ℚ
  cache_write : ℚ
  cache_read : ℚ
  context_window : Int
  session_quota : ℚ
deriving DecidableEq, Repr

/-- The pricing-resolution chain of `calculate_cost`: exact model-id
match, else exact match on the normalized id, else the first key that is
a prefix of the normalized id (or vice versa) and differs from it at
most by an `-extended` suffix.  `normalize` stands for
`FileProcessor._normalize_model_name`, which lives outside the embedded
modules and is passed in as a parameter; every theorem below holds for
an arbitrary `normalize`. -/
def resolvePricing (normalize : String → String) (model_id : String)
    (pricing_data : List (String × ModelPricing)) : Option ModelPricing :=
  match dictGet pricing_data model_id with
  | some p => some p
  | none =>
    let normalized := normalize model_id
    match dictGet pricing_data normalized with
    | some p => some p
    | none =>
      match pricing_data.find? (fun kv =>
        (normalized.startsWith kv.1 || kv.1.startsWith normalized) &&
          ((kv.1.replace "-extended" "") == normalized ||
            (normalized.replace "-extended" "") == kv.1)) with
      | some kv => some kv.2
      | none => none

/-- The local-pricing sum of `calculate_cost`:
`Σ tokens/1e6 × price` over the four token kinds. -/
def localPricingCost (f : InteractionFile) (pricing : ModelPricing) : ℚ :=
  (f.tokens.input : ℚ) / 1000000 * pricing.input
    + (f.tokens.output : ℚ) / 1000000 * pricing.output
    + (f.tokens.cache_write : ℚ) / 1000000 * pricing.cache_write
    + (f.tokens.cache_read : ℚ) / 1000000 * pricing.cache_read

/-- `InteractionFile.calculate_cost`: a stored provider-reported cost
strictly greater than zero is returned verbatim; otherwise the resolved
local pricing is applied, and an unresolved model costs zero. -/
def calculateCost (normalize : String → String) (f : InteractionFile)
    (pricing_data : List (String × ModelPricing)) : ℚ :=
  let fallback :=
    match resolvePricing normalize f.model_id pricing_data with
    | none => 0
    | some pricing => localPricingCost f pricing
  match f.raw_cost with
  | some stored_cost => if 0 < stored_cost then stored_cost else fallback
  | none => fallback

/-! ## Remote price cache (`ocmonitor/services/price_fetcher.py`) -/

/-- A cache envelope as seen by `get_remote_payload` after
`load_cached_payload`: the parsed `expires_at` instant (in epoch
seconds; `none` when the field is missing or `datetime.fromisoformat`
raises) and the payload. -/
structure CacheEnvelope (α : Type) where
  expires_at : Option Int
  payload : α
deriving DecidableEq, Repr

/-- Observable side effects of one `get_remote_payload` call:
whether the cross-process lock file was created, whether a network fetch
was attempted, and whether a fresh envelope was written. -/
structure FetchEffects where
  tookFileLock : Bool
  fetched : Bool
  wroteCache : Bool
deriving DecidableEq, Repr

/-- The environment a `get_remote_payload` call runs against: the cache
envelope on disk at the first read (`none` when missing or invalid),
whether `acquire_lock` succeeds, the envelope found by the re-read after
locking, and the outcome of `fetch_models_dev_json`. -/
structure FetchWorld (α : Type) where
  cache : Option (CacheEnvelope α)
  lockAcquired : Bool
  cacheAfterLock : Option (CacheEnvelope α)
  fetchResult : Option α
deriving DecidableEq, Repr

/-- Freshness test `now < expires_at`; an unparseable `expires_at` is
treated as expired. -/
def envelopeFresh {α : Type} (now : Int) (env : CacheEnvelope α) : Bool :=
  match env.expires_at with
  | some e => now < e
  | none => false

/-- The fetch phase of `get_remote_payload`, entered with the file lock
held: on success write and return the fresh payload, on failure fall
back to the envelope found by the post-lock re-read. -/
def getRemotePayloadFetch {α : Type} (allowStale : Bool) (w : FetchWorld α) :
    Option α × FetchEffects :=
  match w.fetchResult with
  | some payload => (some payload, ⟨true, true, true⟩)
  | none =>
    (if w.cacheAfterLock.isSome && allowStale
      then w.cacheAfterLock.map (·.payload)
      else none,
      ⟨true, true, false⟩)

/-- The stale-or-missing continuation of `get_remote_payload`: acquire
the lock (on failure serve the stale envelope when allowed), re-check
cache freshness, then fetch. -/
def getRemotePayloadLocked {α : Type} (now : Int) (allowStale : Bool)
    (w : FetchWorld α) : Option α × FetchEffects :=
  if !w.lockAcquired then
    (if w.cache.isSome && allowStale then w.cache.map (·.payload) else none,
      ⟨false, false, false⟩)
  else
    match w.cacheAfterLock with
    | some env2 =>
      if envelopeFresh now env2 then
        (some env2.payload, ⟨true, false, false⟩)
      else
        getRemotePayloadFetch allowStale w
    | none => getRemotePayloadFetch allowStale w

/-- `get_remote_payload`, with its filesystem and network interactions
factored into `FetchWorld`.  Returns the payload (or `none`) together
with the effects performed. -/
def getRemotePayload {α : Type} (now : Int) (allowStale : Bool)
    (w : FetchWorld α) : Option α × FetchEffects :=
  match w.cache with
  | some env =>
    if envelopeFresh now env then
      (some env.payload, ⟨false, false, false⟩)
    else
      getRemotePayloadLocked now allowStale w
  | none => getRemotePayloadLocked now allowStale w

/-! ## SQLite message parsing (`ocmonitor/utils/sqlite_utils.py`) -/

/-- A parsed JSON value (the result of a successful `json.loads`).
Numbers are carried as rationals. -/
inductive Json where
  | null
  | bool (b : Bool)
  | num (q : ℚ)
  | str (s : String)
  | arr (elems : List Json)
  | obj (fields : List (String × Json))
deriving Repr

/-- Python truthiness (`bool(x)`) of a decoded JSON value. -/
def pyTruthy : Json → Bool
  | .null => false
  | .bool b => b
  | .num q => q != 0
  | .str s => s != ""
  | .arr elems => !elems.isEmpty
  | .obj fields => !fields.isEmpty

/-- An exception escaping the message parser: an `AttributeError` from
a `.get` call on a non-dict value, or a pydantic `ValidationError`. -/
inductive PyErr where
  | attributeError
  | validationError
deriving DecidableEq, Repr

/-- Calling a dict method (`.get`) on a value: a non-dict receiver
raises `AttributeError`. -/
def asObj : Json → Except PyErr (List (String × Json))
  | .obj fields => .ok fields
  | _ => .error .attributeError

/-- The pydantic v2 field validators used by the message models.  Their
implementation lives in the `pydantic` library, outside this repository
(e.g. it coerces the numeric string `"7"` to `7` for an `int` field and
raises `ValidationError` on a negative value for a `ge=0` field); each
validator is therefore a parameter, and the theorems below hold for
every choice.  `natField` validates a present value into a
`TokenUsage` counter (`int` with `ge=0`), `optIntField` into a
`TimeData` `Optional[int]` field, and `strField` / `optStrField` into
the `str` / `Optional[str]` fields of `InteractionFile`. -/
structure PydanticV where
  natField : Json → Except PyErr Nat
  optIntField : Json → Except PyErr (Option Int)
  strField : Json → Except PyErr String
  optStrField : Json → Except PyErr (Option String)

/-- `d.get(k, 0)` fed to a `TokenUsage` counter field: an absent key
yields the Python default `0`, which the `ge=0` integer field accepts;
a present value goes through the validator. -/
def getTokenField (V : PydanticV) (kvs : List (String × Json))
    (k : String) : Except PyErr Nat :=
  match dictGet kvs k with
  | none => .ok 0
  | some v => V.natField v

/-- A value fed to an `Optional[int]` field: Python `None` (an absent
`.get(k)` key or a JSON `null`, indistinguishable after decoding) is
accepted as `None`; any other value goes through the validator. -/
def optIntVal (V : PydanticV) : Json → Except PyErr (Option Int)
  | .null => .ok none
  | v => V.optIntField v

/-- A value fed to an `Optional[str]` field: Python `None` is accepted
as `None` and a string passes unchanged; any other value goes through
the validator. -/
def optStrVal (V : PydanticV) : Json → Except PyErr (Option String)
  | .null => .ok none
  | .str s => .ok (some s)
  | v => V.optStrField v

/-- A value fed to a `str` field: a string passes unchanged; any other
value goes through the validator. -/
def strVal (V : PydanticV) : Json → Except PyErr String
  | .str s => .ok s
  | v => V.strField v

/-- `SQLiteProcessor._extract_tokens`: `tokens` and `tokens.cache`
default to `{}` when absent; a present non-dict value raises
`AttributeError` at the `.get` call that follows it; each counter is
the raw `.get(k, 0)` value validated into the `ge=0` integer field of
`TokenUsage`. -/
def extractTokens (V : PydanticV) (data : List (String × Json)) :
    Except PyErr TokenUsage := do
  let tokens_data ← asObj ((dictGet data "tokens").getD (.obj []))
  let cache_data ← asObj ((dictGet tokens_data "cache").getD (.obj []))
  let i ← getTokenField V tokens_data "input"
  let o ← getTokenField V tokens_data "output"
  let cw ← getTokenField V cache_data "write"
  let cr ← getTokenField V cache_data "read"
  pure ⟨i, o, cw, cr⟩

/-- `SQLiteProcessor._extract_time_data`: a falsy `time` value (absent
key, empty dict, `null`, `0`, `""`, …) yields `None`; a truthy
non-dict raises `AttributeError` at `time_data.get`; a truthy dict is
validated into `TimeData`. -/
def extractTimeData (V : PydanticV) (data : List (String × Json)) :
    Except PyErr (Option TimeData) :=
  let timeJ := (dictGet data "time").getD (.obj [])
  if pyTruthy timeJ then
    match timeJ with
    | .obj t => do
      let c ← optIntVal V ((dictGet t "created").getD .null)
      let cm ← optIntVal V ((dictGet t "completed").getD .null)
      pure (some ⟨c, cm⟩)
    | _ => .error .attributeError
  else .ok none

/-- `SQLiteProcessor._extract_project_path`: a falsy `path` value
yields `None`; a truthy non-dict raises `AttributeError` at
`path_data.get`; otherwise the raw `path.get("cwd") or
path.get("root")` value is returned (Python `None` encoded as
`Json.null`), to be validated only at `InteractionFile`
construction. -/
def extractProjectPath (data : List (String × Json)) : Except PyErr Json :=
  let pathJ := (dictGet data "path").getD (.obj [])
  if pyTruthy pathJ then
    match pathJ with
    | .obj p =>
      let cwd := (dictGet p "cwd").getD .null
      if pyTruthy cwd then .ok cwd else .ok ((dictGet p "root").getD .null)
    | _ => .error .attributeError
  else .ok .null

/-- `SQLiteProcessor._extract_agent`: the raw `data.get("agent")` value
(Python `None` encoded as `Json.null`), validated only at
`InteractionFile` construction. -/
def extractAgent (data : List (String × Json)) : Json :=
  (dictGet data "agent").getD .null

/-- `SQLiteProcessor._extract_model_name`: the raw `modelID` value when
the key is present, else the nested `model.modelID` (defaulting to
`"unknown"`) when `model` is a dict, else `"unknown"`; validated into
the `str` field `model_id` only at `InteractionFile` construction. -/
def extractModelName (data : List (String × Json)) : Json :=
  match dictGet data "modelID" with
  | some v => v
  | none =>
    match dictGet data "model" with
    | some (.obj md) => (dictGet md "modelID").getD (.str "unknown")
    | _ => .str "unknown"

/-- The return path of `SQLiteProcessor.parse_message_data` for a kept
record: the remaining extractors and the `InteractionFile` pydantic
construction, run in source order. -/
def buildInteraction (V : PydanticV) (data : List (String × Json))
    (session_id : String) (tokens : TokenUsage) :
    Except PyErr (Option InteractionFile) := do
  let time_data ← extractTimeData V data
  let project_pathJ ← extractProjectPath data
  let model_id ← strVal V (extractModelName data)
  let project_path ← optStrVal V project_pathJ
  let agent ← optStrVal V (extractAgent data)
  pure (some {
    session_id := session_id
    model_id := model_id
    tokens := tokens
    time_data := time_data
    project_path := project_path
    agent := agent
    finish_reason := none
    raw_cost :=
      match dictGet data "cost" with
      | some (.num q) => some q
      | _ => none
    mtime := 0 })

/-- `SQLiteProcessor.parse_message_data`.  The input is the result of
`json.loads` on the raw `message.data` column (`none` when decoding
failed).  `.ok none` is a cleanly rejected record, `.ok (some f)` a
kept one, and `.error e` an exception escaping the parser. -/
def parseMessageData (V : PydanticV) (data? : Option Json)
    (session_id : String) : Except PyErr (Option InteractionFile) :=
  match data? with
  | none => .ok none
  | some (Json.obj data) =>
    match dictGet data "role" with
    | some (.str role) =>
      if role = "assistant" then do
        let tokens ← extractTokens V data
        if tokens.total == 0 then pure none
        else buildInteraction V data session_id tokens
      else .ok none
    | _ => .ok none
  | some _ => .ok none

/-- Sort key used when picking the session's agent from the earliest
interaction: `f.time_data.created if f.time_data and f.time_data.created
else 0` (a `created` of `0` is falsy and also maps to `0`). -/
def fileCreatedKey (f : InteractionFile) : Int :=
  match f.time_data with
  | some td => td.created.getD 0
  | none => 0

/-- `SQLiteProcessor.load_session_messages`: parse each message row in
order, keeping the parsed interactions and letting any exception
propagate. -/
def loadSessionMessages (V : PydanticV) (session_id : String) :
    List (Option Json) → Except PyErr (List InteractionFile)
  | [] => .ok []
  | r :: rs => do
    let i? ← parseMessageData V r session_id
    let rest ← loadSessionMessages V session_id rs
    match i? with
    | some i => pure (i :: rest)
    | none => pure rest

/-- `SQLiteProcessor.load_session_data`, with the session row's columns
(`id`, `parent_id`, `title`) and the raw decoded message rows passed in.
Returns `.ok none` when no interaction survives filtering. -/
def loadSessionData (V : PydanticV) (session_id : String)
    (parent_id : Option String) (title : Option String)
    (rows : List (Option Json)) : Except PyErr (Option SessionData) := do
  let interaction_files ← loadSessionMessages V session_id rows
  if interaction_files.isEmpty then pure none
  else
    let sorted_files :=
      pySort (fun f g => fileCreatedKey f ≤ fileCreatedKey g) interaction_files
    let session_agent :=
      match sorted_files with
      | [] => none
      | f :: _ => f.agent
    pure (some {
      session_id := session_id
      parent_id := parent_id
      is_sub_agent := parent_id.isSome
      files := interaction_files
      session_title := title
      agent := session_agent })

/-! ## C10: agent classification totality and overlap -/

/-- C10: for every agent name, `is_main_agent` returns `True` whenever
the lowercased name is not in the sub-agent set, even if it is also
absent from the main-agent set; consequently every agent name
(including `None`) satisfies `is_main_agent` or `is_sub_agent`; and a
name present in both sets makes `is_main_agent` and `is_sub_agent`
return `True` simultaneously. -/
theorem c10_agent_classification (r : AgentRegistry) (name : Option String) :
    (∀ n, name = some n → r.sub_agents.contains (pyLower n) = false →
      r.is_main_agent name = true) ∧
    (r.is_main_agent name = true ∨ r.is_sub_agent name = true) ∧
    (∀ n, name = some n → r.main_agents.contains (pyLower n) = true →
      r.sub_agents.contains (pyLower n) = true →
      r.is_main_agent name = true ∧ r.is_sub_agent name = true) := by
  refine ⟨?_, ?_, ?_⟩
  · intro n hn hsub
    subst hn
    simp [AgentRegistry.is_main_agent]
    exact Or.inr (by simpa using hsub)
  · cases name with
    | none => left; rfl
    | some n =>
      by_cases hsub : r.sub_agents.contains (pyLower n) = true
      · right
        simp [AgentRegistry.is_sub_agent]
        simpa using hsub
      · left
        simp only [Bool.not_eq_true] at hsub
        simp [AgentRegistry.is_main_agent]
        exact Or.inr (by simpa using hsub)
  · intro n hn hmain hsub
    subst hn
    constructor
    · simp [AgentRegistry.is_main_agent]
      exact Or.inl (by simpa using hmain)
    · simp [AgentRegistry.is_sub_agent]
      simpa using hsub

/-- Witness for C10: a discovered definition that re-declares the
built-in main agent `plan` with mode `subagent` puts the name in both
sets, and both predicates then hold at once. -/
theorem c10_agent_classification_witness :
    (loadAgents [("Plan", some "subagent")]).main_agents.contains (pyLower "Plan") = true ∧
    (loadAgents [("Plan", some "subagent")]).sub_agents.contains (pyLower "Plan") = true ∧
    (loadAgents [("Plan", some "subagent")]).is_main_agent (some "Plan") = true ∧
    (loadAgents [("Plan", some "subagent")]).is_sub_agent (some "Plan") = true := by
  have h := (c10_agent_classification (loadAgents [("Plan", some "subagent")])
    (some "Plan")).2.2 "Plan" rfl (by decide) (by decide)
  exact ⟨by decide, by decide, h.1, h.2⟩

/-! ## C7: fresh cache served without any side effect -/

/-- C7: when a valid cached envelope exists and the current time is
strictly before its `expires_at`, `get_remote_payload` returns the
envelope's payload and performs no network fetch, takes no file lock and
rewrites nothing. -/
theorem c7_fresh_cache_served_without_effects {α : Type} (now e : Int)
    (allowStale : Bool) (w : FetchWorld α) (env : CacheEnvelope α)
    (hc : w.cache = some env) (he : env.expires_at = some e) (hlt : now < e) :
    getRemotePayload now allowStale w =
      (some env.payload, ⟨false, false, false⟩) := by
  have hfresh : envelopeFresh now env = true := by
    simp [envelopeFresh, he]
    exact hlt
  unfold getRemotePayload
  rw [hc]
  simp [hfresh]

/-- Witness for C7: an envelope expiring at time 100 queried at time 50
is served as is, with no fetch, lock or write. -/
theorem c7_fresh_cache_served_without_effects_witness :
    (50 : Int) < 100 ∧
    getRemotePayload 50 true
        (⟨some ⟨some 100, 42⟩, false, none, none⟩ : FetchWorld Nat) =
      (some 42, ⟨false, false, false⟩) :=
  ⟨by decide,
    c7_fresh_cache_served_without_effects 50 100 true
      ⟨some ⟨some 100, 42⟩, false, none, none⟩ ⟨some 100, 42⟩ rfl rfl (by decide)⟩

/-! ## C5: stored-cost precedence and local-pricing fallback -/

/-- C5: `calculate_cost` returns a provider-reported cost verbatim
whenever it is present and strictly positive, regardless of the pricing
table; a reported cost of exactly zero, or an absent one, falls through
to the local-pricing sum `Σ tokens/1e6 × price` when a price resolves
for the model, and to zero when none resolves.  The statement holds for
every normalization function handed to the resolution chain. -/
theorem c5_calculate_cost (normalize : String → String) (f : InteractionFile)
    (pricing_data : List (String × ModelPricing)) :
    (∀ c, f.raw_cost = some c → 0 < c →
      calculateCost normalize f pricing_data = c) ∧
    (f.raw_cost = none ∨ f.raw_cost = some 0 →
      (∀ p, resolvePricing normalize f.model_id pricing_data = some p →
        calculateCost normalize f pricing_data = localPricingCost f p) ∧
      (resolvePricing normalize f.model_id pricing_data = none →
        calculateCost normalize f pricing_data = 0)) := by
  constructor
  · intro c hc hpos
    unfold calculateCost
    rw [hc]
    simp [hpos]
  · intro hzero
    constructor
    · intro p hp
      unfold calculateCost
      rw [hp]
      rcases hzero with h | h <;> simp [h]
    · intro hp
      unfold calculateCost
      rw [hp]
      rcases hzero with h | h <;> simp [h]

/-- Witness for C5: a stored cost of 5 wins over a pricing table that
would locally price the interaction differently; without a stored cost,
1M input tokens at \$3/M plus 2M output tokens at \$2/M cost \$7; with an
empty table the cost is zero. -/
theorem c5_calculate_cost_witness :
    calculateCost id
        ⟨"s", "m", ⟨1000000, 2000000, 0, 0⟩, none, none, none, none, some 5, 0⟩
        [("m", ⟨3, 2, 0, 0, 0, 0⟩)] = 5 ∧
    calculateCost id
        ⟨"s", "m", ⟨1000000, 2000000, 0, 0⟩, none, none, none, none, none, 0⟩
        [("m", ⟨3, 2, 0, 0, 0, 0⟩)] = 7 ∧
    calculateCost id
        ⟨"s", "m", ⟨1000000, 2000000, 0, 0⟩, none, none, none, none, none, 0⟩
        [] = 0 := by
  refine ⟨?_, ?_, ?_⟩
  · exact (c5_calculate_cost id _ _).1 5 rfl (by decide)
  · have h := ((c5_calculate_cost id
      ⟨"s", "m", ⟨1000000, 2000000, 0, 0⟩, none, none, none, none, none, 0⟩
      [("m", ⟨3, 2, 0, 0, 0, 0⟩)]).2 (Or.inl rfl)).1
      ⟨3, 2, 0, 0, 0, 0⟩ (by decide)
    rw [h]
    norm_num [localPricingCost]
  · exact ((c5_calculate_cost id _ _).2 (Or.inl rfl)).2 (by decide)

/-! ## C1: selection ranks with sub-agent activity included (code bug) -/

/-- Workflow A's parent: one interaction created at t = 1 000 000 ms. -/
def c1MainA : SessionData :=
  ⟨"wa-main", none, false,
    [⟨"wa-main", "m", ⟨10, 5, 0, 0⟩, some ⟨some 1000000, some 1000500⟩,
      some "/p/proj", some "build", none, none, 0⟩],
    none, some "build"⟩

/-- Workflow A's sub-agent: one interaction created at t = 3 000 000 ms
(the freshest activity overall). -/
def c1SubA : SessionData :=
  ⟨"wa-sub", some "wa-main", true,
    [⟨"wa-sub", "m", ⟨10, 5, 0, 0⟩, some ⟨some 3000000, some 3000500⟩,
      some "/p/proj", some "explore", none, none, 0⟩],
    none, some "explore"⟩

/-- Workflow B's parent: one interaction created at t = 2 000 000 ms
(the freshest **parent** activity of the two workflows). -/
def c1MainB : SessionData :=
  ⟨"wb-main", none, false,
    [⟨"wb-main", "m", ⟨10, 5, 0, 0⟩, some ⟨some 2000000, some 2000500⟩,
      some "/p/proj", some "build", none, none, 0⟩],
    none, some "build"⟩

/-- Workflow A (parent active at 1 000 000, sub-agent at 3 000 000). -/
def c1WorkflowA : WorkflowDict := ⟨"wa-main", c1MainA, [c1SubA]⟩

/-- Workflow B (parent active at 2 000 000, no sub-agents). -/
def c1WorkflowB : WorkflowDict := ⟨"wb-main", c1MainB, []⟩

/-- C1 (evaluation at a failing input): `_select_most_recent_workflow`
ranks workflows by the latest interaction timestamp across **all**
sessions, sub-agents included.  Workflow B's parent was active more
recently than Workflow A's parent (2 000 000 > 1 000 000), so
parent-only ranking — as claimed by the specification and asserted by
the repository's own test
`test_selection_uses_parent_activity_only_not_sub_agent` — must select
Workflow B; the code selects Workflow A because A's sub-agent activity
(3 000 000) dominates. -/
theorem c1_selection_counts_subagent_activity :
    selectMostRecentWorkflow [c1WorkflowA, c1WorkflowB] = some c1WorkflowA ∧
    getLatestActivity ⟨"wa-main", c1MainA, []⟩ <
      getLatestActivity ⟨"wb-main", c1MainB, []⟩ := by
  constructor
  · decide
  · decide

/-! ## C8: record rejection and empty-session suppression -/

/-- A sample field-validator instance used to evaluate the
validation-abstracted definitions on concrete records: exact
non-negative integers for counter fields, exact integers and strings
elsewhere, `ValidationError` on everything else. -/
def exactV : PydanticV where
  natField v :=
    match v with
    | .num q =>
      if q.den = 1 ∧ 0 ≤ q.num then .ok q.num.toNat
      else .error .validationError
    | _ => .error .validationError
  optIntField v :=
    match v with
    | .num q =>
      if q.den = 1 then .ok (some q.num) else .error .validationError
    | _ => .error .validationError
  strField v :=
    match v with
    | .str s => .ok s
    | _ => .error .validationError
  optStrField v :=
    match v with
    | .str s => .ok (some s)
    | _ => .error .validationError

/-- C8: the SQLite session builder cleanly rejects (returns `None` for)
a raw message record that is not a JSON object (including records whose
JSON decoding failed) or whose `role` is not the string `"assistant"`
(absent or non-string roles included); an assistant record whose token
extraction succeeds with total `0` is likewise rejected; and a session
row all of whose messages are rejected yields `None` instead of an
empty session.  Every part holds for an arbitrary choice `V` of the
pydantic field validators. -/
theorem c8_session_builder_rejections (V : PydanticV) (session_id : String) :
    parseMessageData V none session_id = .ok none ∧
    (∀ j : Json, (∀ kvs, j ≠ Json.obj kvs) →
      parseMessageData V (some j) session_id = .ok none) ∧
    (∀ kvs, dictGet kvs "role" ≠ some (Json.str "assistant") →
      parseMessageData V (some (Json.obj kvs)) session_id = .ok none) ∧
    (∀ kvs tk, dictGet kvs "role" = some (Json.str "assistant") →
      extractTokens V kvs = .ok tk → tk.total = 0 →
      parseMessageData V (some (Json.obj kvs)) session_id = .ok none) ∧
    (∀ (parent_id title : Option String) (rows : List (Option Json)),
      (∀ r ∈ rows, parseMessageData V r session_id = .ok none) →
      loadSessionData V session_id parent_id title rows = .ok none) := by
  refine ⟨rfl, ?_, ?_, ?_, ?_⟩
  · intro j hj
    cases j with
    | obj kvs => exact absurd rfl (hj kvs)
    | null => rfl
    | bool b => rfl
    | num q => rfl
    | str s => rfl
    | arr elems => rfl
  · intro kvs hrole
    unfold parseMessageData
    cases h : dictGet kvs "role" with
    | none => simp [h]
    | some v =>
      cases v with
      | str role =>
        by_cases hr : role = "assistant"
        · exact absurd (hr ▸ h) hrole
        · simp [h, hr]
      | null => simp [h]
      | bool b => simp [h]
      | num q => simp [h]
      | arr elems => simp [h]
      | obj fields => simp [h]
  · intro kvs tk hrole htok htot
    show (match dictGet kvs "role" with
      | some (Json.str role) =>
        if role = "assistant" then do
          let tokens ← extractTokens V kvs
          if tokens.total == 0 then pure none
          else buildInteraction V kvs session_id tokens
        else Except.ok none
      | _ => Except.ok none) = Except.ok none
    rw [hrole]
    show (do
      let tokens ← extractTokens V kvs
      if tokens.total == 0 then pure none
      else buildInteraction V kvs session_id tokens :
        Except PyErr (Option InteractionFile)) = Except.ok none
    rw [show (do
      let tokens ← extractTokens V kvs
      if tokens.total == 0 then pure none
      else buildInteraction V kvs session_id tokens :
        Except PyErr (Option InteractionFile)) =
      Except.bind (extractTokens V kvs) (fun tokens =>
        if tokens.total == 0 then Except.ok none
        else buildInteraction V kvs session_id tokens) from rfl]
    rw [htok]
    show (if tk.total == 0 then Except.ok none
      else buildInteraction V kvs session_id tk) = Except.ok none
    rw [htot]
    rfl
  · intro parent_id title rows hall
    have hmsgs : ∀ rs : List (Option Json),
        (∀ r ∈ rs, parseMessageData V r session_id = .ok none) →
        loadSessionMessages V session_id rs = .ok [] := by
      intro rs
      induction rs with
      | nil => intro _; rfl
      | cons r rs ih =>
        intro h
        have hr := h r (List.mem_cons_self r rs)
        have hrs := ih (fun x hx => h x (List.mem_cons_of_mem r hx))
        show Except.bind (parseMessageData V r session_id) (fun i? =>
          Except.bind (loadSessionMessages V session_id rs) (fun rest =>
            match i? with
            | some i => .ok (i :: rest)
            | none => .ok rest)) = .ok []
        rw [hr]
        simp only [Except.bind]
        rw [hrs]
    unfold loadSessionData
    rw [hmsgs rows hall]
    rfl

/-- Witness for C8: a failed decode, a non-object record, a `user`-role
record and a zero-token assistant record are each cleanly rejected, and
a session made of exactly those four rows is not built. -/
theorem c8_session_builder_rejections_witness :
    parseMessageData exactV none "ses_w" = .ok none ∧
    parseMessageData exactV (some (Json.str "oops")) "ses_w" = .ok none ∧
    parseMessageData exactV (some (Json.obj [("role", Json.str "user")]))
      "ses_w" = .ok none ∧
    parseMessageData exactV (some (Json.obj [("role", Json.str "assistant")]))
      "ses_w" = .ok none ∧
    loadSessionData exactV "ses_w" none none
      [none, some (Json.str "oops"),
       some (Json.obj [("role", Json.str "user")]),
       some (Json.obj [("role", Json.str "assistant")])] = .ok none := by
  obtain ⟨h1, h2, h3, h4, h5⟩ := c8_session_builder_rejections exactV "ses_w"
  have hb : parseMessageData exactV (some (Json.str "oops")) "ses_w" = .ok none :=
    h2 (Json.str "oops") (fun kvs h => by cases h)
  have hc : parseMessageData exactV (some (Json.obj [("role", Json.str "user")]))
      "ses_w" = .ok none := by
    refine h3 [("role", Json.str "user")] ?_
    simp [dictGet]
  have hd : parseMessageData exactV
      (some (Json.obj [("role", Json.str "assistant")])) "ses_w" = .ok none :=
    h4 [("role", Json.str "assistant")] ⟨0, 0, 0, 0⟩ rfl rfl rfl
  refine ⟨h1, hb, hc, hd, ?_⟩
  refine h5 none none _ ?_
  intro r hr
  simp only [List.mem_cons, List.not_mem_nil, or_false] at hr
  rcases hr with h | h | h | h
  · rw [h]; exact h1
  · rw [h]; exact hb
  · rw [h]; exact hc
  · rw [h]; exact hd

/-! ## Helper lemmas about the dict / max helpers -/

/-- `pyMax` returns one of the inspected elements. -/
theorem pyMax_mem {α β : Type} (lt : β → β → Bool) (key : α → β)
    (a : α) (l : List α) : pyMax lt key a l ∈ a :: l := by
  induction l generalizing a with
  | nil => simp [pyMax]
  | cons x xs ih =>
    have hEq : pyMax lt key a (x :: xs) =
        pyMax lt key (if lt (key a) (key x) then x else a) xs := rfl
    rw [hEq]
    have h := ih (if lt (key a) (key x) then x else a)
    rcases List.mem_cons.mp h with h1 | h1
    · rw [h1]
      split
      · exact List.mem_cons.mpr (Or.inr (List.mem_cons_self x xs))
      · exact List.mem_cons_self a (x :: xs)
    · exact List.mem_cons.mpr (Or.inr (List.mem_cons.mpr (Or.inr h1)))

/-- `_select_most_recent_workflow` returns a member of its input. -/
theorem selectMostRecentWorkflow_mem {ws : List WorkflowDict} {w : WorkflowDict}
    (h : selectMostRecentWorkflow ws = some w) : w ∈ ws := by
  match ws with
  | [] => cases h
  | [w'] =>
    simp [selectMostRecentWorkflow] at h
    simp [h]
  | w' :: w'' :: t =>
    simp only [selectMostRecentWorkflow, Option.some.injEq] at h
    exact h ▸ pyMax_mem _ _ _ _

/-- `_select_most_recent_workflow` fails only on an empty input. -/
theorem selectMostRecentWorkflow_eq_none {ws : List WorkflowDict}
    (h : selectMostRecentWorkflow ws = none) : ws = [] := by
  match ws with
  | [] => rfl
  | [w'] => cases h
  | w' :: w'' :: t => cases h

/-- Entries produced by rebuilding an active-workflow dict come from the
workflow list that was folded in. -/
theorem mem_dictSet {V : Type} {d : List (String × V)} {k : String} {v : V}
    {kw : String × V} (h : kw ∈ dictSet d k v) : kw ∈ d ∨ kw = (k, v) := by
  induction d with
  | nil => simpa [dictSet] using h
  | cons p t ih =>
    unfold dictSet at h
    by_cases hk : p.1 = k
    · rw [if_pos hk] at h
      rcases List.mem_cons.mp h with h' | h'
      · exact Or.inr h'
      · exact Or.inl (List.mem_cons.mpr (Or.inr h'))
    · rw [if_neg hk] at h
      rcases List.mem_cons.mp h with h' | h'
      · exact Or.inl (h' ▸ List.mem_cons_self p t)
      · rcases ih h' with h'' | h''
        · exact Or.inl (List.mem_cons.mpr (Or.inr h''))
        · exact Or.inr h''

/-- Values of a dict rebuilt as `{w.id: w for w in l}` come from `l`
(or from the fold's initial dict). -/
theorem mem_foldl_dictSet {V : Type} (idOf : V → String) (l : List V)
    (init : List (String × V)) {kw : String × V}
    (h : kw ∈ l.foldl (fun acc w => dictSet acc (idOf w) w) init) :
    kw ∈ init ∨ kw.2 ∈ l := by
  induction l generalizing init with
  | nil => exact Or.inl (by simpa using h)
  | cons x xs ih =>
    rw [List.foldl_cons] at h
    rcases ih (dictSet init (idOf x) x) h with h' | h'
    · rcases mem_dictSet h' with h'' | h''
      · exact Or.inl h''
      · exact Or.inr (by rw [h'']; exact List.mem_cons_self x xs)
    · exact Or.inr (List.mem_cons.mpr (Or.inr h'))

/-- `dictSet` never yields the empty dict. -/
theorem dictSet_ne_nil {V : Type} (d : List (String × V)) (k : String) (v : V) :
    dictSet d k v ≠ [] := by
  cases d with
  | nil => simp [dictSet]
  | cons p t =>
    unfold dictSet
    split <;> simp

/-- Folding assignments over a non-empty dict keeps it non-empty. -/
theorem foldl_dictSet_ne_nil_of_ne {α : Type} (idOf : α → String) (l : List α)
    (init : List (String × α)) (hinit : init ≠ []) :
    l.foldl (fun acc w => dictSet acc (idOf w) w) init ≠ [] := by
  induction l generalizing init with
  | nil => exact hinit
  | cons x xs ih =>
    rw [List.foldl_cons]
    exact ih (dictSet init (idOf x) x) (dictSet_ne_nil _ _ _)

/-- Rebuilding a dict from a non-empty workflow list is non-empty. -/
theorem foldl_dictSet_from_nil_ne_nil {α : Type} (idOf : α → String)
    {l : List α} (h : l ≠ []) :
    l.foldl (fun acc w => dictSet acc (idOf w) w) [] ≠ [] := by
  cases l with
  | nil => exact absurd rfl h
  | cons x xs =>
    rw [List.foldl_cons]
    exact foldl_dictSet_ne_nil_of_ne idOf xs _ (dictSet_ne_nil _ _ _)

/-! ## C2: no false "new sub-agent" events on a workflow switch -/

/-- C2: on every poll that carries data (in particular on every poll in
which the displayed workflow switches — a switch can only happen on such
a poll), the monitoring loops never emit a "new sub-agent detected"
event for a session that was in the previously tracked session-id set,
and hence never for a session that belonged to any tracked active
workflow of the previous poll; the rebuilt tracked set again covers
every session of every tracked workflow (so the hypothesis is the
maintained invariant); and the SQLite loop, which rebuilds its tracked
set before diffing, emits no such event at all on a data poll. -/
theorem c2_no_false_subagent_on_switch
    (st : FileMonState) (workflows : List SessionWorkflow)
    (hw : workflows ≠ [])
    (hinv : ∀ kw ∈ st.active, ∀ sid ∈ sessionIds kw.2, sid ∈ st.tracked) :
    (∀ sid ∈ (fileMonitorStep st workflows).2, sid ∉ st.tracked) ∧
    (∀ sid ∈ (fileMonitorStep st workflows).2,
      ∀ kw ∈ st.active, sid ∉ sessionIds kw.2) ∧
    (∀ kw ∈ (fileMonitorStep st workflows).1.active,
      ∀ sid ∈ sessionIds kw.2, sid ∈ (fileMonitorStep st workflows).1.tracked) ∧
    (∀ (stq : SqliteMonState) (newWfs : List WorkflowDict), newWfs ≠ [] →
      (sqliteMonitorStep stq newWfs).2 = []) := by
  have hempty : workflows.isEmpty = false := by
    cases workflows with
    | nil => exact absurd rfl hw
    | cons a t => rfl
  have hstep1 :
      (∀ sid ∈ (fileMonitorStep st workflows).2, sid ∉ st.tracked) ∧
      (∀ kw ∈ (fileMonitorStep st workflows).1.active,
        ∀ sid ∈ sessionIds kw.2, sid ∈ (fileMonitorStep st workflows).1.tracked) := by
    unfold fileMonitorStep
    rw [hempty]
    simp only [Bool.false_eq_true, if_false]
    split
    case _ newCurrent heq =>
      constructor
      · intro sid hsid
        simp only [List.mem_filter, Bool.not_eq_true'] at hsid
        intro hmem
        have hc : st.tracked.contains sid = true := List.elem_iff.mpr hmem
        rw [hsid.2] at hc
        exact Bool.noConfusion hc
      · intro kw hkw sid hsid
        exact List.mem_flatMap.mpr ⟨kw.2, List.mem_map.mpr ⟨kw, hkw, rfl⟩, hsid⟩
    case _ heq =>
      constructor
      · intro sid hsid
        simp only [List.mem_filter, Bool.not_eq_true'] at hsid
        intro hmem
        have hc : st.tracked.contains sid = true := List.elem_iff.mpr hmem
        rw [hsid.2] at hc
        exact Bool.noConfusion hc
      · intro kw hkw sid hsid
        exact List.mem_flatMap.mpr ⟨kw.2, List.mem_map.mpr ⟨kw, hkw, rfl⟩, hsid⟩
  refine ⟨hstep1.1, ?_, hstep1.2, ?_⟩
  · intro sid hsid kw hkw hmem
    exact hstep1.1 sid hsid (hinv kw hkw sid hmem)
  · intro stq newWfs hne
    have hempty2 : newWfs.isEmpty = false := by
      cases newWfs with
      | nil => exact absurd rfl hne
      | cons a t => rfl
    unfold sqliteMonitorStep
    rw [hempty2]
    simp only [Bool.false_eq_true, if_false]
    split
    case _ newCurrent heq =>
      have hmem := selectMostRecentWorkflow_mem heq
      have hnil : newCurrent.sessionIds.filter
          (fun sid =>
            !((dictValues (newWfs.foldl
                (fun acc w => dictSet acc w.workflow_id w) [])).flatMap
              WorkflowDict.sessionIds).contains sid) = [] := by
        rw [List.filter_eq_nil_iff]
        intro sid hsid
        simp only [Bool.not_eq_true', Bool.not_eq_false]
        exact List.elem_iff.mpr (List.mem_flatMap.mpr ⟨newCurrent, hmem, hsid⟩)
      simp only [hnil]
    case _ heq =>
      have h1 := selectMostRecentWorkflow_eq_none heq
      have h2 : newWfs.foldl (fun acc w => dictSet acc w.workflow_id w) [] = [] := by
        have := congrArg List.length h1
        simp only [dictValues, List.length_map, List.length_nil] at this
        exact List.eq_nil_of_length_eq_zero this
      exact absurd h2
        (foldl_dictSet_from_nil_ne_nil (fun w : WorkflowDict => w.workflow_id) hne)

/-- C2 example: previously displayed workflow with a main and a sub. -/
def c2WorkflowX : SessionWorkflow :=
  ⟨"x-main", ⟨"x-main", none, false, [], none, none⟩,
    [⟨"x-sub", some "x-main", true, [], none, none⟩]⟩

/-- C2 example: the workflow displayed after the switch. -/
def c2WorkflowY : SessionWorkflow :=
  ⟨"y-main", ⟨"y-main", none, false, [], none, none⟩,
    [⟨"y-sub", some "y-main", true, [], none, none⟩]⟩

/-- C2 example: loop state tracking workflow X before the poll. -/
def c2State : FileMonState :=
  ⟨[("x-main", c2WorkflowX)], ["x-main", "x-sub"], ["x-main", "x-sub"],
    "x-main", c2WorkflowX⟩

/-- C2 example: a SQLite workflow dict. -/
def c2SqWorkflow : WorkflowDict :=
  ⟨"z-main", ⟨"z-main", none, false, [], none, none⟩,
    [⟨"z-sub", some "z-main", true, [], none, none⟩]⟩

/-- C2 example: SQLite loop state displaying another workflow. -/
def c2SqState : SqliteMonState :=
  ⟨[], [], "x-main", c2SqWorkflow⟩

/-- Witness for C2: a poll replacing tracked workflow X by workflow Y
switches the display (to `y-main`) and emits events only for Y's
sessions, which were in no previously tracked workflow; the SQLite loop
emits nothing on its data poll. -/
theorem c2_no_false_subagent_on_switch_witness :
    (fileMonitorStep c2State [c2WorkflowY]).1.currentId = "y-main" ∧
    (∀ sid ∈ (fileMonitorStep c2State [c2WorkflowY]).2, sid ∉ c2State.tracked) ∧
    (∀ sid ∈ (fileMonitorStep c2State [c2WorkflowY]).2,
      ∀ kw ∈ c2State.active, sid ∉ sessionIds kw.2) ∧
    (sqliteMonitorStep c2SqState [c2SqWorkflow]).2 = [] := by
  have h := c2_no_false_subagent_on_switch c2State [c2WorkflowY]
    (by simp) (by decide)
  exact ⟨by decide, h.1, h.2.1, h.2.2.2 c2SqState [c2SqWorkflow] (by simp)⟩

/-! ## Order and sorting helper lemmas -/

/-- `optTimeLE` is reflexive. -/
theorem optTimeLE_refl (a : Option Int) : optTimeLE a a = true := by
  cases a <;> simp [optTimeLE]

/-- `optTimeLE` is transitive. -/
theorem optTimeLE_trans {a b c : Option Int} (h1 : optTimeLE a b = true)
    (h2 : optTimeLE b c = true) : optTimeLE a c = true := by
  cases a <;> cases b <;> cases c <;> simp_all [optTimeLE] <;> omega

/-- A strict comparison implies the reflexive one. -/
theorem optTimeLT_le {a b : Option Int} (h : optTimeLT a b = true) :
    optTimeLE a b = true := by
  cases a <;> cases b <;> simp_all [optTimeLT, optTimeLE] <;> omega

/-- Totality: when `a` is not strictly below `b`, `b` is below `a`. -/
theorem optTimeLE_of_not_lt {a b : Option Int} (h : optTimeLT a b = false) :
    optTimeLE b a = true := by
  cases a <;> cases b <;> simp_all [optTimeLT, optTimeLE] <;> omega

/-- Elements of `insertSorted` are the inserted element and the list. -/
theorem insertSorted_perm {α : Type} (le : α → α → Bool) (a : α) (l : List α) :
    (insertSorted le a l).Perm (a :: l) := by
  induction l with
  | nil => simp [insertSorted]
  | cons b t ih =>
    unfold insertSorted
    split
    · exact List.Perm.refl _
    · exact (ih.cons b).trans (List.Perm.swap a b t)

/-- `pySort` permutes its input. -/
theorem pySort_perm {α : Type} (le : α → α → Bool) (l : List α) :
    (pySort le l).Perm l := by
  induction l with
  | nil => exact List.Perm.refl _
  | cons a t ih => exact (insertSorted_perm le a (pySort le t)).trans (ih.cons a)

/-- The result of `pyMax` under `optTimeLT` has a key at least as large
as the key of every inspected element. -/
theorem pyMax_optTime_ge {α : Type} (key : α → Option Int) (a : α) (l : List α) :
    ∀ x ∈ a :: l, optTimeLE (key x) (key (pyMax optTimeLT key a l)) = true := by
  induction l generalizing a with
  | nil =>
    intro x hx
    rcases List.mem_cons.mp hx with h | h
    · rw [h]
      simp only [pyMax, List.foldl_nil]
      exact optTimeLE_refl _
    · cases h
  | cons y ys ih =>
    intro x hx
    have hEq : pyMax optTimeLT key a (y :: ys) =
        pyMax optTimeLT key (if optTimeLT (key a) (key y) then y else a) ys := rfl
    rw [hEq]
    by_cases hlt : optTimeLT (key a) (key y) = true
    · rw [if_pos hlt] at hEq ⊢
      have hy := ih y y (List.mem_cons_self y ys)
      rcases List.mem_cons.mp hx with h | h
      · rw [h]
        exact optTimeLE_trans (optTimeLT_le hlt) hy
      · exact ih y x h
    · rw [if_neg hlt] at hEq ⊢
      have ha := ih a a (List.mem_cons_self a ys)
      rcases List.mem_cons.mp hx with h | h
      · rw [h]
        exact ih a a (List.mem_cons_self a ys)
      · rcases List.mem_cons.mp h with h' | h'
        · rw [h']
          have hba : optTimeLE (key y) (key a) = true :=
            optTimeLE_of_not_lt (by simpa using hlt)
          exact optTimeLE_trans hba ha
        · exact ih a x (List.mem_cons.mpr (Or.inr h'))

/-! ## Further dict membership lemmas -/

/-- Unfolding `dictGet` over a cons cell. -/
theorem dictGet_cons {V : Type} (p : String × V) (t : List (String × V))
    (k : String) :
    dictGet (p :: t) k = if p.1 = k then some p.2 else dictGet t k := by
  obtain ⟨pk, pv⟩ := p
  rfl

/-- The freshly assigned entry is present after `dictSet`. -/
theorem self_mem_dictSet {V : Type} (d : List (String × V)) (k : String) (v : V) :
    (k, v) ∈ dictSet d k v := by
  induction d with
  | nil => simp [dictSet]
  | cons p t ih =>
    unfold dictSet
    split
    · exact List.mem_cons_self _ _
    · exact List.mem_cons.mpr (Or.inr ih)

/-- Entries under a different key survive `dictSet`. -/
theorem mem_dictSet_ne {V : Type} {d : List (String × V)} {k : String} {v : V}
    {kw : String × V} (h : kw ∈ d) (hne : kw.1 ≠ k) : kw ∈ dictSet d k v := by
  induction d with
  | nil => cases h
  | cons p t ih =>
    unfold dictSet
    rcases List.mem_cons.mp h with h' | h'
    · split
      case _ he =>
        exact absurd (h' ▸ he) hne
      case _ he =>
        exact h' ▸ List.mem_cons_self _ _
    · split
      · exact List.mem_cons.mpr (Or.inr h')
      · exact List.mem_cons.mpr (Or.inr (ih h'))

/-- Entries under a different key survive `dictModify`. -/
theorem mem_dictModify_ne {V : Type} {d : List (String × V)} {k : String}
    {f : V → V} {kw : String × V} (h : kw ∈ d) (hne : kw.1 ≠ k) :
    kw ∈ dictModify d k f := by
  induction d with
  | nil => cases h
  | cons p t ih =>
    unfold dictModify
    rcases List.mem_cons.mp h with h' | h'
    · split
      case _ he =>
        exact absurd (h' ▸ he) hne
      case _ he =>
        exact h' ▸ List.mem_cons_self _ _
    · split
      · exact List.mem_cons.mpr (Or.inr h')
      · exact List.mem_cons.mpr (Or.inr (ih h'))

/-- Every entry of `dictModify` is an old entry or the image of an old
entry under the modification, at the modified key. -/
theorem mem_dictModify {V : Type} {d : List (String × V)} {k : String}
    {f : V → V} {kw : String × V} (h : kw ∈ dictModify d k f) :
    kw ∈ d ∨ (kw.1 = k ∧ ∃ v, (k, v) ∈ d ∧ kw.2 = f v) := by
  induction d with
  | nil => cases h
  | cons p t ih =>
    unfold dictModify at h
    split at h
    case _ he =>
      rcases List.mem_cons.mp h with h' | h'
      · right
        refine ⟨by rw [h', he], p.2, ?_, by rw [h']⟩
        exact List.mem_cons.mpr (Or.inl (by rw [← he]))
      · exact Or.inl (List.mem_cons.mpr (Or.inr h'))
    case _ he =>
      rcases List.mem_cons.mp h with h' | h'
      · exact Or.inl (h' ▸ List.mem_cons_self p t)
      · rcases ih h' with h'' | h''
        · exact Or.inl (List.mem_cons.mpr (Or.inr h''))
        · exact Or.inr ⟨h''.1,
            h''.2.choose, List.mem_cons.mpr (Or.inr h''.2.choose_spec.1),
            h''.2.choose_spec.2⟩

/-- Every entry of `dictSet` is an old entry or carries the new value. -/
theorem mem_dictSet' {V : Type} {d : List (String × V)} {k : String} {v : V}
    {kw : String × V} (h : kw ∈ dictSet d k v) : kw ∈ d ∨ kw = (k, v) :=
  mem_dictSet h

/-- When the key is absent, `dictSet` appends the new entry. -/
theorem dictSet_fresh {V : Type} {d : List (String × V)} {k : String} (v : V)
    (h : dictGet d k = none) : dictSet d k v = d ++ [(k, v)] := by
  induction d with
  | nil => rfl
  | cons p t ih =>
    unfold dictGet at h
    unfold dictSet
    split
    case _ he =>
      rw [he] at h
      simp at h
    case _ he =>
      rw [if_neg he] at h
      rw [ih h]
      rfl

/-- Keys are preserved by `dictModify`. -/
theorem dictKeys_dictModify {V : Type} (d : List (String × V)) (k : String)
    (f : V → V) : dictKeys (dictModify d k f) = dictKeys d := by
  induction d with
  | nil => rfl
  | cons p t ih =>
    unfold dictModify
    split
    · rfl
    · simp only [dictKeys, List.map_cons]
      exact congrArg (p.1 :: ·) (by simpa [dictKeys] using ih)

/-- Keys after `dictSet` are among the old keys and the new key. -/
theorem dictKeys_dictSet_subset {V : Type} (d : List (String × V)) (k : String)
    (v : V) : ∀ k' ∈ dictKeys (dictSet d k v), k' ∈ dictKeys d ∨ k' = k := by
  intro k' h
  rcases List.mem_map.mp h with ⟨kw, hkw, hfst⟩
  rcases mem_dictSet hkw with h' | h'
  · exact Or.inl (hfst ▸ List.mem_map.mpr ⟨kw, h', rfl⟩)
  · right
    rw [← hfst, h']

/-- A key outside the key list has no stored value. -/
theorem dictGet_eq_none_of_not_mem_keys {V : Type} {d : List (String × V)}
    {k : String} (h : k ∉ dictKeys d) : dictGet d k = none := by
  induction d with
  | nil => rfl
  | cons p t ih =>
    unfold dictGet
    split
    case _ he =>
      exact absurd (List.mem_map.mpr ⟨p, List.mem_cons_self p t, he⟩) h
    case _ he =>
      exact ih (fun hm => h (List.mem_cons.mpr (Or.inr hm)))

/-! ## Parent-search lemmas -/

/-- Membership in the candidate list, unfolded. -/
theorem mem_parentCandidates_iff {sub : SessionData} {t : Int}
    {mains : List SessionData} {m : SessionData} :
    m ∈ parentCandidates sub t mains ↔
      m ∈ mains ∧ m.project_name = sub.project_name ∧
        ∃ u, m.start_time = some u ∧ u ≤ t := by
  unfold parentCandidates
  rw [List.mem_filter]
  constructor
  · rintro ⟨hm, hcond⟩
    rw [Bool.and_eq_true] at hcond
    refine ⟨hm, by simpa using hcond.1, ?_⟩
    rcases hs : m.start_time with _ | u
    · rw [hs] at hcond
      exact absurd hcond.2 (by simp)
    · refine ⟨u, rfl, ?_⟩
      rw [hs] at hcond
      simpa using hcond.2
  · rintro ⟨hm, hproj, u, hs, hle⟩
    refine ⟨hm, ?_⟩
    rw [Bool.and_eq_true]
    exact ⟨by simpa using hproj, by rw [hs]; simpa using hle⟩

/-- A found parent is one of the candidates. -/
theorem findParentSession_mem_candidates {sub : SessionData}
    {mains : List SessionData} {p : SessionData} {t : Int}
    (hst : sub.start_time = some t)
    (h : findParentSession sub mains = some p) :
    p ∈ parentCandidates sub t mains := by
  unfold findParentSession at h
  rw [hst] at h
  have h2 : (match parentCandidates sub t mains with
      | [] => none
      | c :: cs => some (pyMax optTimeLT (fun s => s.start_time) c cs)) = some p := h
  cases hc : parentCandidates sub t mains with
  | nil => rw [hc] at h2; cases h2
  | cons c cs =>
    rw [hc] at h2
    simp only [Option.some.injEq] at h2
    exact h2 ▸ pyMax_mem _ _ _ _

/-- The found parent's start time dominates every candidate's. -/
theorem findParentSession_maximal {sub : SessionData}
    {mains : List SessionData} {p : SessionData} {t : Int}
    (hst : sub.start_time = some t)
    (h : findParentSession sub mains = some p) :
    ∀ m ∈ parentCandidates sub t mains,
      optTimeLE m.start_time p.start_time = true := by
  unfold findParentSession at h
  rw [hst] at h
  have h2 : (match parentCandidates sub t mains with
      | [] => none
      | c :: cs => some (pyMax optTimeLT (fun s => s.start_time) c cs)) = some p := h
  cases hc : parentCandidates sub t mains with
  | nil => rw [hc] at h2; cases h2
  | cons c cs =>
    rw [hc] at h2
    simp only [Option.some.injEq] at h2
    intro m hm
    exact h2 ▸ pyMax_optTime_ge (fun s => s.start_time) c cs m hm

/-- When candidates exist the search succeeds. -/
theorem findParentSession_isSome {sub : SessionData} {mains : List SessionData}
    {t : Int} {m : SessionData} (hst : sub.start_time = some t)
    (hm : m ∈ parentCandidates sub t mains) :
    ∃ p, findParentSession sub mains = some p := by
  unfold findParentSession
  rw [hst]
  show ∃ p, (match parentCandidates sub t mains with
      | [] => none
      | c :: cs => some (pyMax optTimeLT (fun s => s.start_time) c cs)) = some p
  cases hc : parentCandidates sub t mains with
  | nil => rw [hc] at hm; cases hm
  | cons c cs => exact ⟨_, rfl⟩

/-- The search fails exactly on an unknown start time or an empty
candidate list. -/
theorem findParentSession_eq_none {sub : SessionData} {mains : List SessionData} :
    (sub.start_time = none → findParentSession sub mains = none) ∧
    (∀ t, sub.start_time = some t → parentCandidates sub t mains = [] →
      findParentSession sub mains = none) := by
  constructor
  · intro h
    unfold findParentSession
    rw [h]
  · intro t hst hc
    unfold findParentSession
    rw [hst]
    show (match parentCandidates sub t mains with
      | [] => none
      | c :: cs => some (pyMax optTimeLT (fun s => s.start_time) c cs)) = none
    rw [hc]

/-! ## Grouping: session-content bookkeeping -/

/-- The sessions carried by one workflow: main first, then subs. -/
def wfSessions (w : SessionWorkflow) : List SessionData :=
  w.main_session :: w.sub_agent_sessions

/-- All sessions stored in a workflow dict. -/
def dictSessions (wfs : List (String × SessionWorkflow)) : List SessionData :=
  wfs.flatMap (fun kw => wfSessions kw.2)

/-- Modifying a present entry by appending a sub-agent adds exactly
that session to the dict's content. -/
theorem dictSessions_dictModify_appendSub {d : List (String × SessionWorkflow)}
    {k : String} (sub : SessionData) (hk : dictContains d k = true) :
    (dictSessions (dictModify d k (appendSub sub))).Perm (sub :: dictSessions d) := by
  induction d with
  | nil => simp [dictContains, dictGet] at hk
  | cons p t ih =>
    unfold dictModify
    by_cases he : p.1 = k
    · rw [if_pos he]
      simp only [dictSessions, List.flatMap_cons]
      have hshape :
          wfSessions (appendSub sub p.2) ++ t.flatMap (fun kw => wfSessions kw.2) =
          wfSessions p.2 ++ (sub :: t.flatMap (fun kw => wfSessions kw.2)) := by
        simp [wfSessions, appendSub]
      rw [hshape]
      exact List.perm_middle
    · rw [if_neg he]
      have hk' : dictContains t k = true := by
        simp only [dictContains] at hk ⊢
        rw [dictGet_cons, if_neg he] at hk
        exact hk
      have ihh := ih hk'
      simp only [dictSessions, List.flatMap_cons] at ihh ⊢
      exact ((ihh.append_left (wfSessions p.2)).trans List.perm_middle)

/-- Assigning a fresh standalone workflow appends exactly its session. -/
theorem dictSessions_dictSet_fresh {d : List (String × SessionWorkflow)}
    {k : String} (s : SessionData) (h : dictGet d k = none) :
    dictSessions (dictSet d k (mkWorkflow s)) = dictSessions d ++ [s] := by
  rw [dictSet_fresh _ h]
  simp [dictSessions, wfSessions, mkWorkflow]

/-- A found parent is one of the given main sessions. -/
theorem findParentSession_mem {sub : SessionData} {mains : List SessionData}
    {p : SessionData} (h : findParentSession sub mains = some p) : p ∈ mains := by
  cases hst : sub.start_time with
  | none =>
    rw [(findParentSession_eq_none).1 hst] at h
    cases h
  | some t =>
    exact (mem_parentCandidates_iff.mp
      (findParentSession_mem_candidates hst h)).1

/-- One linking step adds exactly the processed sub-agent to the dict's
session content, provided its id is not already a key. -/
theorem attachSub_sessions_perm (mains : List SessionData)
    {wfs : List (String × SessionWorkflow)} (sub : SessionData)
    (hfresh : dictGet wfs sub.session_id = none) :
    (dictSessions (attachSub mains wfs sub)).Perm (sub :: dictSessions wfs) := by
  unfold attachSub
  cases h : findParentSession sub mains with
  | none =>
    rw [dictSessions_dictSet_fresh sub hfresh]
    simpa using @List.perm_middle _ sub (dictSessions wfs) []
  | some p =>
    show (dictSessions
        (if dictContains wfs p.session_id = true then
          dictModify wfs p.session_id (appendSub sub)
        else dictSet wfs sub.session_id (mkWorkflow sub))).Perm
      (sub :: dictSessions wfs)
    by_cases hc : dictContains wfs p.session_id = true
    · rw [if_pos hc]
      exact dictSessions_dictModify_appendSub sub hc
    · rw [if_neg hc]
      rw [dictSessions_dictSet_fresh sub hfresh]
      simpa using @List.perm_middle _ sub (dictSessions wfs) []

/-- One linking step adds at most the sub-agent's own id to the keys. -/
theorem attachSub_keys_subset (mains : List SessionData)
    (wfs : List (String × SessionWorkflow)) (sub : SessionData) :
    ∀ k ∈ dictKeys (attachSub mains wfs sub),
      k ∈ dictKeys wfs ∨ k = sub.session_id := by
  intro k hk
  unfold attachSub at hk
  cases h : findParentSession sub mains with
  | none =>
    rw [h] at hk
    exact dictKeys_dictSet_subset _ _ _ k hk
  | some p =>
    rw [h] at hk
    have hk2 : k ∈ dictKeys
        (if dictContains wfs p.session_id = true then
          dictModify wfs p.session_id (appendSub sub)
        else dictSet wfs sub.session_id (mkWorkflow sub)) := hk
    by_cases hc : dictContains wfs p.session_id = true
    · rw [if_pos hc, dictKeys_dictModify] at hk2
      exact Or.inl hk2
    · rw [if_neg hc] at hk2
      exact dictKeys_dictSet_subset _ _ _ k hk2

/-- Folding the linking step over sub-agents with fresh, pairwise
distinct ids adds exactly those sessions to the dict's content. -/
theorem foldl_attachSub_sessions_perm (mains : List SessionData)
    (subs : List SessionData) (wfs : List (String × SessionWorkflow))
    (hfresh : ∀ s ∈ subs, s.session_id ∉ dictKeys wfs)
    (hnodup : (subs.map SessionData.session_id).Nodup) :
    (dictSessions (subs.foldl (attachSub mains) wfs)).Perm
      (dictSessions wfs ++ subs) := by
  induction subs generalizing wfs with
  | nil => simp
  | cons s rest ih =>
    rw [List.foldl_cons]
    have hf : dictGet wfs s.session_id = none :=
      dictGet_eq_none_of_not_mem_keys (hfresh s (List.mem_cons_self s rest))
    have h1 := attachSub_sessions_perm mains s hf
    rw [List.map_cons, List.nodup_cons] at hnodup
    have hfresh' : ∀ s' ∈ rest, s'.session_id ∉ dictKeys (attachSub mains wfs s) := by
      intro s' hs' hk
      rcases attachSub_keys_subset mains wfs s s'.session_id hk with h | h
      · exact hfresh s' (List.mem_cons.mpr (Or.inr hs')) h
      · exact hnodup.1 (h ▸ List.mem_map.mpr ⟨s', hs', rfl⟩)
    have ih' := ih (attachSub mains wfs s) hfresh' hnodup.2
    refine ih'.trans ?_
    refine (h1.append_right rest).trans ?_
    exact List.perm_middle.symm

/-- An entry whose key is neither a main-session id nor the id of any
sub-agent still to be processed survives the linking fold untouched. -/
theorem foldl_attachSub_preserves_entry (mains : List SessionData)
    (subs : List SessionData) {wfs : List (String × SessionWorkflow)}
    {k : String} {w : SessionWorkflow} (hmem : (k, w) ∈ wfs)
    (hkm : ∀ m ∈ mains, k ≠ m.session_id)
    (hks : ∀ s ∈ subs, k ≠ s.session_id) :
    (k, w) ∈ subs.foldl (attachSub mains) wfs := by
  induction subs generalizing wfs with
  | nil => exact hmem
  | cons s rest ih =>
    rw [List.foldl_cons]
    refine ih ?_ (fun s' hs' => hks s' (List.mem_cons.mpr (Or.inr hs')))
    unfold attachSub
    cases h : findParentSession s mains with
    | none =>
      exact mem_dictSet_ne hmem (hks s (List.mem_cons_self s rest))
    | some p =>
      show (k, w) ∈
        (if dictContains wfs p.session_id = true then
          dictModify wfs p.session_id (appendSub s)
        else dictSet wfs s.session_id (mkWorkflow s))
      by_cases hc : dictContains wfs p.session_id = true
      · rw [if_pos hc]
        exact mem_dictModify_ne hmem (hkm p (findParentSession_mem h))
      · rw [if_neg hc]
        exact mem_dictSet_ne hmem (hks s (List.mem_cons_self s rest))

/-- The seeded dict's session content is exactly the main sessions. -/
theorem dictSessions_seeded (l : List SessionData) :
    dictSessions (l.map (fun m => (m.session_id, mkWorkflow m))) = l := by
  induction l with
  | nil => rfl
  | cons m t ih =>
    simp only [List.map_cons, dictSessions, List.flatMap_cons] at ih ⊢
    rw [ih]
    rfl

/-- The seeded dict's keys are the main-session ids. -/
theorem dictKeys_seeded (l : List SessionData) :
    dictKeys (l.map (fun m => (m.session_id, mkWorkflow m))) =
      l.map SessionData.session_id := by
  simp [dictKeys, List.map_map]

/-! ## The grouper's intermediate values, named -/

/-- The grouper's sorted main-session list (`main_sessions` after the
partition and sort of `group_sessions`). -/
def grouperMains (reg : AgentRegistry) (sessions : List SessionData) :
    List SessionData :=
  pySort (fun a b => optTimeLE a.start_time b.start_time)
    (sessions.filter (fun s => !reg.is_sub_agent s.agent))

/-- The grouper's sorted sub-agent list. -/
def grouperSubs (reg : AgentRegistry) (sessions : List SessionData) :
    List SessionData :=
  pySort (fun a b => optTimeLE a.start_time b.start_time)
    (sessions.filter (fun s => reg.is_sub_agent s.agent))

/-- The grouper's workflow dict after seeding and linking. -/
def grouperDict (reg : AgentRegistry) (sessions : List SessionData) :
    List (String × SessionWorkflow) :=
  (grouperSubs reg sessions).foldl (attachSub (grouperMains reg sessions))
    ((grouperMains reg sessions).map (fun m => (m.session_id, mkWorkflow m)))

/-- `group_sessions` unfolded into its named intermediate values. -/
theorem groupSessions_eq (reg : AgentRegistry) (sessions : List SessionData) :
    groupSessions reg sessions =
      pySort (fun a b => optTimeLE b.start_time a.start_time)
        (dictValues (grouperDict reg sessions)) := rfl

/-- The invariant carried by the grouper's workflow dict: every entry is
keyed by its workflow id, which is its main session's id; the main
session is one of the input sessions; and every attached sub-agent was
attached because the parent search returned exactly that main session. -/
def GrouperInv (sessions mainsSorted : List SessionData)
    (wfs : List (String × SessionWorkflow)) : Prop :=
  ∀ kw ∈ wfs, kw.2.workflow_id = kw.1 ∧
    kw.2.main_session.session_id = kw.1 ∧
    kw.2.main_session ∈ sessions ∧
    ∀ s ∈ kw.2.sub_agent_sessions,
      findParentSession s mainsSorted = some kw.2.main_session

/-- The seeded dict satisfies the invariant. -/
theorem grouperInv_seeded (sessions mainsSorted : List SessionData)
    (hm : ∀ m ∈ mainsSorted, m ∈ sessions) :
    GrouperInv sessions mainsSorted
      (mainsSorted.map (fun m => (m.session_id, mkWorkflow m))) := by
  intro kw hkw
  rcases List.mem_map.mp hkw with ⟨m, hmm, hkw2⟩
  rw [← hkw2]
  exact ⟨rfl, rfl, hm m hmm, by intro s hs; cases hs⟩

/-- One linking step preserves the invariant. -/
theorem grouperInv_attachSub (sessions mainsSorted : List SessionData)
    (hinj : ∀ x ∈ sessions, ∀ y ∈ sessions,
      x.session_id = y.session_id → x = y)
    (hm : ∀ m ∈ mainsSorted, m ∈ sessions)
    {wfs : List (String × SessionWorkflow)}
    (hI : GrouperInv sessions mainsSorted wfs)
    (sub : SessionData) (hsubmem : sub ∈ sessions) :
    GrouperInv sessions mainsSorted (attachSub mainsSorted wfs sub) := by
  intro kw hkw
  unfold attachSub at hkw
  cases h : findParentSession sub mainsSorted with
  | none =>
    rw [h] at hkw
    rcases mem_dictSet hkw with hold | hnew
    · exact hI kw hold
    · rw [hnew]
      exact ⟨rfl, rfl, hsubmem, by intro s hs; cases hs⟩
  | some p =>
    rw [h] at hkw
    have hkw2 : kw ∈
        (if dictContains wfs p.session_id = true then
          dictModify wfs p.session_id (appendSub sub)
        else dictSet wfs sub.session_id (mkWorkflow sub)) := hkw
    by_cases hc : dictContains wfs p.session_id = true
    · rw [if_pos hc] at hkw2
      rcases mem_dictModify hkw2 with hold | ⟨hk1, v, hv, hk2⟩
      · exact hI kw hold
      · obtain ⟨hwid, hmid, hmmem, hsubs⟩ := hI (p.session_id, v) hv
        have hvmain : v.main_session = p :=
          hinj v.main_session hmmem p (hm p (findParentSession_mem h)) hmid
        refine ⟨?_, ?_, ?_, ?_⟩
        · rw [hk2]
          show v.workflow_id = kw.1
          rw [hwid, hk1]
        · rw [hk2]
          show v.main_session.session_id = kw.1
          rw [hmid, hk1]
        · rw [hk2]
          exact hmmem
        · rw [hk2]
          show ∀ s ∈ v.sub_agent_sessions ++ [sub], _
          intro s hs
          rcases List.mem_append.mp hs with hs' | hs'
          · show findParentSession s mainsSorted = some v.main_session
            exact hsubs s hs'
          · show findParentSession s mainsSorted = some v.main_session
            rw [List.mem_singleton.mp hs', hvmain]
            exact h
    · rw [if_neg hc] at hkw2
      rcases mem_dictSet hkw2 with hold | hnew
      · exact hI kw hold
      · rw [hnew]
        exact ⟨rfl, rfl, hsubmem, by intro s hs; cases hs⟩

/-- The fully linked dict satisfies the invariant. -/
theorem grouperInv_grouperDict (reg : AgentRegistry)
    (sessions : List SessionData)
    (hnodup : (sessions.map SessionData.session_id).Nodup) :
    GrouperInv sessions (grouperMains reg sessions) (grouperDict reg sessions) := by
  have hinj : ∀ x ∈ sessions, ∀ y ∈ sessions,
      x.session_id = y.session_id → x = y := by
    intro x hx y hy hxy
    exact List.inj_on_of_nodup_map hnodup hx hy hxy
  have hm : ∀ m ∈ grouperMains reg sessions, m ∈ sessions := by
    intro m hmm
    have h1 : m ∈ sessions.filter (fun s => !reg.is_sub_agent s.agent) :=
      (pySort_perm _ _).mem_iff.mp hmm
    exact (List.mem_filter.mp h1).1
  have hsubmem : ∀ s ∈ grouperSubs reg sessions, s ∈ sessions := by
    intro s hs
    have h1 : s ∈ sessions.filter (fun s => reg.is_sub_agent s.agent) :=
      (pySort_perm _ _).mem_iff.mp hs
    exact (List.mem_filter.mp h1).1
  unfold grouperDict
  have hgen : ∀ (l : List SessionData), (∀ s ∈ l, s ∈ sessions) →
      ∀ (wfs : List (String × SessionWorkflow)),
        GrouperInv sessions (grouperMains reg sessions) wfs →
        GrouperInv sessions (grouperMains reg sessions)
          (l.foldl (attachSub (grouperMains reg sessions)) wfs) := by
    intro l
    induction l with
    | nil => intro _ wfs hI; exact hI
    | cons s rest ih =>
      intro hl wfs hI
      rw [List.foldl_cons]
      exact ih (fun s' hs' => hl s' (List.mem_cons.mpr (Or.inr hs')))
        _ (grouperInv_attachSub sessions _ hinj hm hI s
          (hl s (List.mem_cons_self s rest)))
  exact hgen _ hsubmem _ (grouperInv_seeded sessions _ hm)

/-- The dict's session content, read off its values. -/
theorem dictSessions_eq_values_flatMap (d : List (String × SessionWorkflow)) :
    (dictValues d).flatMap wfSessions = dictSessions d := by
  induction d with
  | nil => rfl
  | cons p t ih =>
    simp only [dictValues, List.map_cons, List.flatMap_cons] at ih ⊢
    rw [show List.map Prod.snd t = dictValues t from rfl] at *
    rw [ih]
    rfl

/-! ## C9: the grouper partitions the input sessions -/

/-- C9: for pairwise distinct session ids, `group_sessions` outputs
workflows in which every input session appears exactly once — the
flattened output (each workflow contributing its main session and its
sub-agent list) is a permutation of the input — and every workflow is
keyed by its own main session's id. -/
theorem c9_group_sessions_partition (reg : AgentRegistry)
    (sessions : List SessionData)
    (hnodup : (sessions.map SessionData.session_id).Nodup) :
    ((groupSessions reg sessions).flatMap wfSessions).Perm sessions ∧
    ∀ w ∈ groupSessions reg sessions,
      w.workflow_id = w.main_session.session_id := by
  have hinj : ∀ x ∈ sessions, ∀ y ∈ sessions,
      x.session_id = y.session_id → x = y := by
    intro x hx y hy hxy
    exact List.inj_on_of_nodup_map hnodup hx hy hxy
  constructor
  · -- The permutation chain through the grouper's stages.
    have hsubnodup : ((grouperSubs reg sessions).map SessionData.session_id).Nodup := by
      have h1 : ((sessions.filter (fun s => reg.is_sub_agent s.agent)).map
          SessionData.session_id).Nodup :=
        hnodup.sublist ((List.filter_sublist sessions).map SessionData.session_id)
      exact ((List.Perm.map SessionData.session_id
        (pySort_perm _ _)).symm).nodup h1
    have hfresh : ∀ s ∈ grouperSubs reg sessions, s.session_id ∉
        dictKeys ((grouperMains reg sessions).map
          (fun m => (m.session_id, mkWorkflow m))) := by
      intro s hs hk
      rw [dictKeys_seeded] at hk
      rcases List.mem_map.mp hk with ⟨m, hmm, hid⟩
      have hmf : m ∈ sessions.filter (fun s => !reg.is_sub_agent s.agent) :=
        (pySort_perm _ _).mem_iff.mp hmm
      have hsf : s ∈ sessions.filter (fun s => reg.is_sub_agent s.agent) :=
        (pySort_perm _ _).mem_iff.mp hs
      have hms : m = s :=
        hinj m (List.mem_filter.mp hmf).1 s (List.mem_filter.mp hsf).1 hid
      have hb1 := (List.mem_filter.mp hmf).2
      have hb2 := (List.mem_filter.mp hsf).2
      rw [hms, hb2] at hb1
      cases hb1
    have hperm1 := foldl_attachSub_sessions_perm (grouperMains reg sessions)
      (grouperSubs reg sessions)
      ((grouperMains reg sessions).map (fun m => (m.session_id, mkWorkflow m)))
      hfresh hsubnodup
    rw [dictSessions_seeded] at hperm1
    have ho1 : ((groupSessions reg sessions).flatMap wfSessions).Perm
        (dictSessions (grouperDict reg sessions)) := by
      rw [groupSessions_eq, ← dictSessions_eq_values_flatMap]
      exact List.Perm.flatMap_right wfSessions (pySort_perm _ _)
    have hfilters : (grouperMains reg sessions ++ grouperSubs reg sessions).Perm
        sessions := by
      have happ := (pySort_perm (fun a b => optTimeLE a.start_time b.start_time)
        (sessions.filter (fun s => !reg.is_sub_agent s.agent))).append
        (pySort_perm (fun a b => optTimeLE a.start_time b.start_time)
          (sessions.filter (fun s => reg.is_sub_agent s.agent)))
      refine happ.trans ?_
      refine (List.perm_append_comm).trans ?_
      exact List.filter_append_perm (fun s => reg.is_sub_agent s.agent) sessions
    exact ho1.trans ((show dictSessions (grouperDict reg sessions) =
      dictSessions (grouperDict reg sessions) from rfl) ▸
      (hperm1.trans hfilters))
  · intro w hw
    rw [groupSessions_eq] at hw
    have hw2 : w ∈ dictValues (grouperDict reg sessions) :=
      (pySort_perm _ _).mem_iff.mp hw
    rcases List.mem_map.mp hw2 with ⟨kw, hkw, hsnd⟩
    obtain ⟨hwid, hmid, _, _⟩ := grouperInv_grouperDict reg sessions hnodup kw hkw
    rw [← hsnd]
    rw [hwid, hmid]

/-- C9 example: one main session and one sub-agent session. -/
def c9Main : SessionData :=
  ⟨"m1", none, false,
    [⟨"m1", "mod", ⟨1, 0, 0, 0⟩, some ⟨some 1000, none⟩, none, some "build",
      none, none, 0⟩], none, some "build"⟩

/-- C9 example: a sub-agent session on the same (unknown) project. -/
def c9Sub : SessionData :=
  ⟨"s1", none, true,
    [⟨"s1", "mod", ⟨1, 0, 0, 0⟩, some ⟨some 2000, none⟩, none, some "explore",
      none, none, 0⟩], none, some "explore"⟩

/-- Witness for C9: grouping a concrete main and sub-agent keeps both
sessions, each exactly once, and the workflow ids match the mains. -/
theorem c9_group_sessions_partition_witness :
    (([c9Main, c9Sub].map SessionData.session_id).Nodup) ∧
    ((groupSessions builtinRegistry [c9Main, c9Sub]).flatMap wfSessions).Perm
      [c9Main, c9Sub] ∧
    ∀ w ∈ groupSessions builtinRegistry [c9Main, c9Sub],
      w.workflow_id = w.main_session.session_id := by
  have h := c9_group_sessions_partition builtinRegistry [c9Main, c9Sub]
    (by decide)
  exact ⟨by decide, h.1, h.2⟩

/-! ## C3: sub-agents attach to the latest preceding same-project main -/

/-- C3: when a sub-agent with known start time `t` is given a parent by
`_find_parent_session`, that parent is one of the mains, shares the
sub-agent's derived project name, and started at some `s ≤ t` that is at
least as late as the start of every other qualifying main; conversely
the search succeeds whenever a qualifying main exists; and in
`group_sessions` output a session sits in a workflow's sub-agent list
only because the parent search returned exactly that workflow's main
session. -/
theorem c3_latest_preceding_parent (sub : SessionData)
    (mains : List SessionData) (t : Int) (hst : sub.start_time = some t) :
    (∀ p, findParentSession sub mains = some p →
      p ∈ mains ∧ p.project_name = sub.project_name ∧
      ∃ s, p.start_time = some s ∧ s ≤ t ∧
        ∀ m ∈ mains, m.project_name = sub.project_name →
          ∀ u, m.start_time = some u → u ≤ t → u ≤ s) ∧
    (∀ m ∈ mains, m.project_name = sub.project_name →
      (∃ u, m.start_time = some u ∧ u ≤ t) →
      ∃ p, findParentSession sub mains = some p) ∧
    (∀ (reg : AgentRegistry) (sessions : List SessionData),
      (sessions.map SessionData.session_id).Nodup →
      ∀ w ∈ groupSessions reg sessions, ∀ s ∈ w.sub_agent_sessions,
        findParentSession s (grouperMains reg sessions) =
          some w.main_session) := by
  refine ⟨?_, ?_, ?_⟩
  · intro p hp
    have hpc := findParentSession_mem_candidates hst hp
    obtain ⟨hpm, hproj, s, hps, hle⟩ := mem_parentCandidates_iff.mp hpc
    refine ⟨hpm, hproj, s, hps, hle, ?_⟩
    intro m hmm hmproj u hmu hut
    have hmc : m ∈ parentCandidates sub t mains :=
      mem_parentCandidates_iff.mpr ⟨hmm, hmproj, u, hmu, hut⟩
    have hdom := findParentSession_maximal hst hp m hmc
    rw [hmu, hps] at hdom
    simpa [optTimeLE] using hdom
  · intro m hm hproj ⟨u, hu, hle⟩
    exact findParentSession_isSome hst
      (mem_parentCandidates_iff.mpr ⟨hm, hproj, u, hu, hle⟩)
  · intro reg sessions hnd w hw s hs
    rw [groupSessions_eq] at hw
    have hw2 : w ∈ dictValues (grouperDict reg sessions) :=
      (pySort_perm _ _).mem_iff.mp hw
    rcases List.mem_map.mp hw2 with ⟨kw, hkw, hsnd⟩
    obtain ⟨_, _, _, hsubs⟩ := grouperInv_grouperDict reg sessions hnd kw hkw
    rw [← hsnd] at hs
    rw [← hsnd]
    exact hsubs s hs

/-- C3 example: same-project main started at t = 0 ms. -/
def c3Main0 : SessionData :=
  ⟨"m0", none, false,
    [⟨"m0", "mod", ⟨1, 0, 0, 0⟩, some ⟨some 0, none⟩, none, some "build",
      none, none, 0⟩], none, some "build"⟩

/-- C3 example: same-project main started at t = 10 000 ms. -/
def c3Main10 : SessionData :=
  ⟨"m10", none, false,
    [⟨"m10", "mod", ⟨1, 0, 0, 0⟩, some ⟨some 10000, none⟩, none, some "build",
      none, none, 0⟩], none, some "build"⟩

/-- C3 example: a sub-agent started at t = 15 000 ms. -/
def c3Sub : SessionData :=
  ⟨"s15", none, true,
    [⟨"s15", "mod", ⟨1, 0, 0, 0⟩, some ⟨some 15000, none⟩, none, some "explore",
      none, none, 0⟩], none, some "explore"⟩

/-- Witness for C3: with two same-project mains at t = 0 and t = 10 000
and a sub-agent at t = 15 000, the search picks the t = 10 000 main, and
that parent satisfies all the qualifying and maximality properties. -/
theorem c3_latest_preceding_parent_witness :
    c3Sub.start_time = some 15000 ∧
    findParentSession c3Sub [c3Main0, c3Main10] = some c3Main10 ∧
    c3Main10 ∈ [c3Main0, c3Main10] ∧
    c3Main10.project_name = c3Sub.project_name ∧
    ∃ s, c3Main10.start_time = some s ∧ s ≤ 15000 ∧
      ∀ m ∈ [c3Main0, c3Main10], m.project_name = c3Sub.project_name →
        ∀ u, m.start_time = some u → u ≤ 15000 → u ≤ s := by
  have hfind : findParentSession c3Sub [c3Main0, c3Main10] = some c3Main10 := by
    decide
  have h := (c3_latest_preceding_parent c3Sub [c3Main0, c3Main10] 15000
    (by decide)).1 c3Main10 hfind
  exact ⟨by decide, hfind, h.1, h.2.1, h.2.2⟩

/-! ## C4: orphan sub-agents are promoted, never dropped -/

/-- The claim's notion of a qualifying parent: a same-project main with
a known start time at or before the sub-agent's known start time. -/
def qualifiesAsParent (m sub : SessionData) : Bool :=
  m.project_name == sub.project_name &&
    (match m.start_time, sub.start_time with
     | some u, some t => u ≤ t
     | _, _ => false)

/-- With a known sub-agent start time the candidate loop filters exactly
the qualifying mains. -/
theorem parentCandidates_eq_filter_qualifies {sub : SessionData} {t : Int}
    (mains : List SessionData) (hst : sub.start_time = some t) :
    parentCandidates sub t mains =
      mains.filter (fun m => qualifiesAsParent m sub) := by
  unfold parentCandidates
  refine List.filter_congr ?_
  intro m _
  unfold qualifiesAsParent
  rw [hst]
  cases m.start_time <;> rfl

/-- C4: a sub-agent session for which no qualifying parent main exists —
in particular every sub-agent with unknown start time — is promoted to a
standalone workflow (itself as main, no sub-agents) keyed by its own id,
and is therefore never dropped from the grouper's output. -/
theorem c4_orphan_promotion (reg : AgentRegistry)
    (sessions : List SessionData) (sub : SessionData)
    (hnodup : (sessions.map SessionData.session_id).Nodup)
    (hmem : sub ∈ sessions)
    (hsub : reg.is_sub_agent sub.agent = true)
    (hnoparent : ∀ m ∈ sessions, reg.is_sub_agent m.agent = false →
      qualifiesAsParent m sub = false) :
    (∃ w ∈ groupSessions reg sessions,
      w.workflow_id = sub.session_id ∧ w.main_session = sub ∧
      w.sub_agent_sessions = []) ∧
    (sub.start_time = none → ∀ mains, findParentSession sub mains = none) := by
  have hinj : ∀ x ∈ sessions, ∀ y ∈ sessions,
      x.session_id = y.session_id → x = y := by
    intro x hx y hy hxy
    exact List.inj_on_of_nodup_map hnodup hx hy hxy
  constructor
  · -- The parent search fails for `sub` over the grouper's mains.
    have hfind : findParentSession sub (grouperMains reg sessions) = none := by
      cases hst : sub.start_time with
      | none => exact (findParentSession_eq_none).1 hst
      | some t =>
        refine (findParentSession_eq_none).2 t hst ?_
        rw [parentCandidates_eq_filter_qualifies _ hst]
        rw [List.filter_eq_nil_iff]
        intro m hmm
        have hmf : m ∈ sessions.filter (fun s => !reg.is_sub_agent s.agent) :=
          (pySort_perm _ _).mem_iff.mp hmm
        have hq := hnoparent m (List.mem_filter.mp hmf).1
          (by simpa using (List.mem_filter.mp hmf).2)
        simp [hq]
    -- `sub` occurs in the sorted sub-agent list; split the fold there.
    have hsmem : sub ∈ grouperSubs reg sessions := by
      have : sub ∈ sessions.filter (fun s => reg.is_sub_agent s.agent) :=
        List.mem_filter.mpr ⟨hmem, hsub⟩
      exact (pySort_perm _ _).mem_iff.mpr this
    obtain ⟨l1, l2, hsplit⟩ := List.append_of_mem hsmem
    have hsubnodup : ((grouperSubs reg sessions).map SessionData.session_id).Nodup := by
      have h1 : ((sessions.filter (fun s => reg.is_sub_agent s.agent)).map
          SessionData.session_id).Nodup :=
        hnodup.sublist ((List.filter_sublist sessions).map SessionData.session_id)
      exact ((List.Perm.map SessionData.session_id
        (pySort_perm _ _)).symm).nodup h1
    -- The id of `sub` is distinct from every main id and every id in `l2`.
    have hkm : ∀ m ∈ grouperMains reg sessions, sub.session_id ≠ m.session_id := by
      intro m hmm heq
      have hmf : m ∈ sessions.filter (fun s => !reg.is_sub_agent s.agent) :=
        (pySort_perm _ _).mem_iff.mp hmm
      have hms : sub = m :=
        hinj sub hmem m (List.mem_filter.mp hmf).1 heq
      have hb := (List.mem_filter.mp hmf).2
      rw [← hms, hsub] at hb
      cases hb
    have hks : ∀ s ∈ l2, sub.session_id ≠ s.session_id := by
      intro s hs heq
      have := hsubnodup
      rw [hsplit, List.map_append, List.map_cons] at this
      have hnd2 := (List.nodup_append.mp this).2
      rw [List.nodup_cons] at hnd2
      exact hnd2.1.1 (heq ▸ List.mem_map.mpr ⟨s, hs, rfl⟩)
    -- Run the fold up to `sub`, create the standalone entry, persist it.
    have hentry : (sub.session_id, mkWorkflow sub) ∈ grouperDict reg sessions := by
      unfold grouperDict
      rw [hsplit, List.foldl_append, List.foldl_cons]
      refine foldl_attachSub_preserves_entry _ l2 ?_ hkm hks
      unfold attachSub
      rw [hfind]
      exact self_mem_dictSet _ _ _
    refine ⟨mkWorkflow sub, ?_, rfl, rfl, rfl⟩
    rw [groupSessions_eq]
    refine (pySort_perm _ _).mem_iff.mpr ?_
    exact List.mem_map.mpr ⟨(sub.session_id, mkWorkflow sub), hentry, rfl⟩
  · intro hst mains
    exact (findParentSession_eq_none).1 hst

/-- C4 example: a main session that started only at t = 20 000 ms. -/
def c4Main : SessionData :=
  ⟨"m1", none, false,
    [⟨"m1", "mod", ⟨1, 0, 0, 0⟩, some ⟨some 20000, none⟩, none, some "build",
      none, none, 0⟩], none, some "build"⟩

/-- C4 example: a sub-agent that started earlier, at t = 15 000 ms, so
the only same-project main lies in its future. -/
def c4Sub : SessionData :=
  ⟨"s1", none, true,
    [⟨"s1", "mod", ⟨1, 0, 0, 0⟩, some ⟨some 15000, none⟩, none, some "explore",
      none, none, 0⟩], none, some "explore"⟩

/-- Witness for C4: the sub-agent that precedes every same-project main
is promoted to its own workflow and survives into the output. -/
theorem c4_orphan_promotion_witness :
    builtinRegistry.is_sub_agent c4Sub.agent = true ∧
    (∃ w ∈ groupSessions builtinRegistry [c4Main, c4Sub],
      w.workflow_id = c4Sub.session_id ∧ w.main_session = c4Sub ∧
      w.sub_agent_sessions = []) := by
  have h := c4_orphan_promotion builtinRegistry [c4Main, c4Sub] c4Sub
    (by decide) (by decide) (by decide) (by decide)
  exact ⟨by decide, h.1⟩

/-! ## C6: merge lemmas -/

/-- `optOr x none = x`. -/
theorem optOr_none_right {V : Type} (x : Option V) : optOr x none = x := by
  cases x <;> rfl

/-- A stored value witnesses a dict entry. -/
theorem dictGet_mem {V : Type} {d : List (String × V)} {k : String} {v : V}
    (h : dictGet d k = some v) : (k, v) ∈ d := by
  induction d with
  | nil => cases h
  | cons p t ih =>
    rw [dictGet_cons] at h
    by_cases he : p.1 = k
    · rw [if_pos he] at h
      have hp : p = (k, v) := by
        obtain ⟨pk, pv⟩ := p
        simp only [Option.some.injEq] at h
        simp only at he
        subst he
        subst h
        rfl
      exact List.mem_cons.mpr (Or.inl hp.symm)
    · rw [if_neg he] at h
      exact List.mem_cons.mpr (Or.inr (ih h))

/-- Lookup after a single assignment. -/
theorem dictGet_dictSet {V : Type} (d : List (String × V)) (k k' : String)
    (v : V) :
    dictGet (dictSet d k v) k' = if k = k' then some v else dictGet d k' := by
  induction d with
  | nil => simp [dictSet, dictGet]
  | cons p t ih =>
    unfold dictSet
    by_cases hpk : p.1 = k
    · rw [if_pos hpk, dictGet_cons, dictGet_cons]
      by_cases hkk : k = k'
      · rw [if_pos hkk]
        simp [hkk]
      · rw [if_neg hkk, if_neg hkk]
        rw [if_neg (by rw [hpk]; exact hkk)]
    · rw [if_neg hpk, dictGet_cons, dictGet_cons]
      by_cases hpk' : p.1 = k'
      · rw [if_pos hpk', if_pos hpk']
        rw [if_neg (fun hkk => hpk (by rw [hkk, hpk']))]
      · rw [if_neg hpk', if_neg hpk']
        exact ih

/-- Lookup across concatenated dicts. -/
theorem dictGet_append {V : Type} (d1 d2 : List (String × V)) (k : String) :
    dictGet (d1 ++ d2) k = optOr (dictGet d1 k) (dictGet d2 k) := by
  induction d1 with
  | nil => rfl
  | cons p t ih =>
    rw [List.cons_append, dictGet_cons, dictGet_cons]
    by_cases he : p.1 = k
    · rw [if_pos he, if_pos he]
      rfl
    · rw [if_neg he, if_neg he]
      exact ih

/-- Field-wise record update: the updating record's value wins where it
is defined (its field keys being distinct). -/
theorem dictGet_dictUpdate {V : Type} (ex md : List (String × V))
    (hnd : (dictKeys md).Nodup) (f : String) :
    dictGet (dictUpdate ex md) f = optOr (dictGet md f) (dictGet ex f) := by
  induction md generalizing ex with
  | nil => rfl
  | cons p t ih =>
    obtain ⟨k, v⟩ := p
    rw [show dictUpdate ex ((k, v) :: t) = dictUpdate (dictSet ex k v) t from rfl]
    rw [show dictKeys ((k, v) :: t) = k :: dictKeys t from rfl,
      List.nodup_cons] at hnd
    rw [ih (dictSet ex k v) hnd.2, dictGet_cons]
    by_cases hfk : k = f
    · rw [if_pos (show (k, v).1 = f from hfk)]
      rw [dictGet_eq_none_of_not_mem_keys (fun hm => hnd.1 (hfk ▸ hm))]
      rw [dictGet_dictSet, if_pos hfk]
      rfl
    · rw [if_neg (show ¬(k, v).1 = f from hfk)]
      rw [dictGet_dictSet, if_neg hfk]

/-- Folding fresh assignments with distinct keys appends the entries. -/
theorem foldl_dictSet_fresh_append {V : Type} (l : List (String × V))
    (acc : List (String × V))
    (hdisj : ∀ k ∈ dictKeys l, dictGet acc k = none)
    (hnd : (dictKeys l).Nodup) :
    l.foldl (fun a kv => dictSet a kv.1 kv.2) acc = acc ++ l := by
  induction l generalizing acc with
  | nil => simp
  | cons p t ih =>
    obtain ⟨k, v⟩ := p
    rw [show dictKeys ((k, v) :: t) = k :: dictKeys t from rfl,
      List.nodup_cons] at hnd
    rw [List.foldl_cons]
    have hfresh : dictGet acc k = none :=
      hdisj k (List.mem_cons_self _ _)
    rw [dictSet_fresh v hfresh]
    have hdisj' : ∀ k' ∈ dictKeys t, dictGet (acc ++ [(k, v)]) k' = none := by
      intro k' hk'
      rw [dictGet_append]
      rw [hdisj k' (List.mem_cons.mpr (Or.inr hk'))]
      have hone : dictGet [(k, v)] k' = none := by
        unfold dictGet
        rw [if_neg (fun he : k = k' => hnd.1 (he.symm ▸ hk'))]
        rfl
      rw [hone]
      rfl
    rw [ih (acc ++ [(k, v)]) hdisj' hnd.2]
    simp

/-- Overlaying records with fresh, distinct model keys appends them. -/
theorem overlayRecords_fresh_append {V : Type}
    (src : List (String × List (String × V)))
    (acc : List (String × List (String × V)))
    (hdisj : ∀ k ∈ dictKeys src, dictGet acc k = none)
    (hnd : (dictKeys src).Nodup) :
    overlayRecords acc src = acc ++ src := by
  induction src generalizing acc with
  | nil => simp [overlayRecords]
  | cons p t ih =>
    obtain ⟨k, md⟩ := p
    rw [show dictKeys ((k, md) :: t) = k :: dictKeys t from rfl,
      List.nodup_cons] at hnd
    rw [show overlayRecords acc ((k, md) :: t) =
      overlayRecords
        (match dictGet acc k with
         | some existing => dictSet acc k (dictUpdate existing md)
         | none => dictSet acc k md) t from rfl]
    have hfresh : dictGet acc k = none := hdisj k (List.mem_cons_self _ _)
    rw [hfresh]
    rw [dictSet_fresh md hfresh]
    have hdisj' : ∀ k' ∈ dictKeys t, dictGet (acc ++ [(k, md)]) k' = none := by
      intro k' hk'
      rw [dictGet_append]
      rw [hdisj k' (List.mem_cons.mpr (Or.inr hk'))]
      have hone : dictGet [(k, md)] k' = none := by
        unfold dictGet
        rw [if_neg (fun he : k = k' => hnd.1 (he.symm ▸ hk'))]
        rfl
      rw [hone]
      rfl
    rw [ih (acc ++ [(k, md)]) hdisj' hnd.2]
    simp

/-- Model-level effect of one overlay pass. -/
theorem dictGet_overlayRecords {V : Type}
    (src : List (String × List (String × V)))
    (acc : List (String × List (String × V)))
    (hnd : (dictKeys src).Nodup) (m : String) :
    dictGet (overlayRecords acc src) m =
      match dictGet src m with
      | some md => some
          (match dictGet acc m with
           | some ex => dictUpdate ex md
           | none => md)
      | none => dictGet acc m := by
  induction src generalizing acc with
  | nil => rfl
  | cons p t ih =>
    obtain ⟨k, md⟩ := p
    rw [show dictKeys ((k, md) :: t) = k :: dictKeys t from rfl,
      List.nodup_cons] at hnd
    rw [show overlayRecords acc ((k, md) :: t) =
      overlayRecords
        (match dictGet acc k with
         | some existing => dictSet acc k (dictUpdate existing md)
         | none => dictSet acc k md) t from rfl]
    rw [ih _ hnd.2, dictGet_cons]
    by_cases hmk : k = m
    · rw [if_pos (show (k, md).1 = m from hmk)]
      rw [dictGet_eq_none_of_not_mem_keys (fun hm => hnd.1 (hmk ▸ hm))]
      cases hacc : dictGet acc k with
      | none =>
        rw [dictGet_dictSet, if_pos hmk, ← hmk, hacc]
      | some ex =>
        rw [dictGet_dictSet, if_pos hmk, ← hmk, hacc]
    · rw [if_neg (show ¬(k, md).1 = m from hmk)]
      cases hacc : dictGet acc k with
      | none =>
        rw [dictGet_dictSet, if_neg hmk]
      | some ex =>
        rw [dictGet_dictSet, if_neg hmk]

/-- Field-level effect of one overlay pass: the overlaid source wins on
the fields it defines. -/
theorem modelFieldLookup_overlayRecords {V : Type}
    (src : List (String × List (String × V)))
    (acc : List (String × List (String × V)))
    (hsrc : WellFormedPricing src) (m f : String) :
    modelFieldLookup (overlayRecords acc src) m f =
      optOr (modelFieldLookup src m f) (modelFieldLookup acc m f) := by
  unfold modelFieldLookup
  rw [dictGet_overlayRecords src acc hsrc.1 m]
  cases hsm : dictGet src m with
  | none => rfl
  | some md =>
    have hmdnd : (dictKeys md).Nodup := hsrc.2 (m, md) (dictGet_mem hsm)
    cases hacc : dictGet acc m with
    | none =>
      simp only [Option.bind_some, Option.bind_none]
      exact (optOr_none_right _).symm
    | some ex =>
      simp only [Option.bind_some]
      exact dictGet_dictUpdate ex md hmdnd f

/-! ## C6: the three-way pricing merge -/

/-- C6: the three-way merge satisfies the identity laws
`merge(local, {}, {}) = local` and `merge({}, {}, remote) = remote`; in
general every field's effective value comes from the highest-precedence
source (user over local over remote) that defines it, field by field
rather than whole-record; in particular a field defined in all three
sources takes the user's value, and a field defined only in remote and
local takes the local value. -/
theorem c6_merge_model_prices {V : Type}
    (local_raw user_raw remote_raw : List (String × List (String × V)))
    (hl : WellFormedPricing local_raw) (hu : WellFormedPricing user_raw)
    (hr : WellFormedPricing remote_raw) :
    mergeModelPrices local_raw [] [] = local_raw ∧
    mergeModelPrices [] [] remote_raw = remote_raw ∧
    (∀ m f, modelFieldLookup (mergeModelPrices local_raw user_raw remote_raw) m f =
      optOr (modelFieldLookup user_raw m f)
        (optOr (modelFieldLookup local_raw m f)
          (modelFieldLookup remote_raw m f))) ∧
    (∀ m f vu vl vr, modelFieldLookup user_raw m f = some vu →
      modelFieldLookup local_raw m f = some vl →
      modelFieldLookup remote_raw m f = some vr →
      modelFieldLookup (mergeModelPrices local_raw user_raw remote_raw) m f =
        some vu) ∧
    (∀ m f vl vr, modelFieldLookup user_raw m f = none →
      modelFieldLookup local_raw m f = some vl →
      modelFieldLookup remote_raw m f = some vr →
      modelFieldLookup (mergeModelPrices local_raw user_raw remote_raw) m f =
        some vl) := by
  have hbase : ∀ (r : List (String × List (String × V))),
      (dictKeys r).Nodup →
      r.foldl (fun (acc : List (String × List (String × V))) md =>
        dictSet acc md.1 md.2) [] = r := by
    intro r hnd
    have := foldl_dictSet_fresh_append r [] (fun k _ => rfl) hnd
    simpa using this
  have hmerge : mergeModelPrices local_raw user_raw remote_raw =
      overlayRecords (overlayRecords
        (remote_raw.foldl (fun (acc : List (String × List (String × V))) md =>
          dictSet acc md.1 md.2) [])
        local_raw) user_raw := rfl
  have hgeneral : ∀ m f,
      modelFieldLookup (mergeModelPrices local_raw user_raw remote_raw) m f =
        optOr (modelFieldLookup user_raw m f)
          (optOr (modelFieldLookup local_raw m f)
            (modelFieldLookup remote_raw m f)) := by
    intro m f
    rw [hmerge, hbase remote_raw hr.1]
    rw [modelFieldLookup_overlayRecords user_raw _ hu m f]
    rw [modelFieldLookup_overlayRecords local_raw _ hl m f]
  refine ⟨?_, ?_, hgeneral, ?_, ?_⟩
  · show overlayRecords
      (overlayRecords ([] : List (String × List (String × V))) local_raw)
      ([] : List (String × List (String × V))) = local_raw
    have h1 : overlayRecords ([] : List (String × List (String × V)))
        local_raw = local_raw := by
      have := overlayRecords_fresh_append local_raw [] (fun k _ => rfl) hl.1
      simpa using this
    rw [h1]
    rfl
  · show overlayRecords
      (overlayRecords
        (remote_raw.foldl (fun (acc : List (String × List (String × V))) md =>
          dictSet acc md.1 md.2) [])
        ([] : List (String × List (String × V))))
      ([] : List (String × List (String × V))) = remote_raw
    rw [hbase remote_raw hr.1]
    rfl
  · intro m f vu vl vr hvu hvl hvr
    rw [hgeneral m f, hvu]
    rfl
  · intro m f vl vr hvu hvl hvr
    rw [hgeneral m f, hvu, hvl]
    rfl

/-- Witness for C6: on concrete pricing dicts the identity laws hold,
the field `input` defined in all three sources takes the user value, the
field `output` defined only in local and remote takes the local value,
and `cacheRead`, defined only in remote, survives into the merge. -/
theorem c6_merge_model_prices_witness :
    mergeModelPrices [("m", [("input", 1), ("output", 2)])]
      ([] : List (String × List (String × Nat))) [] =
      [("m", [("input", 1), ("output", 2)])] ∧
    mergeModelPrices ([] : List (String × List (String × Nat))) []
      [("m", [("input", 5), ("output", 6), ("cacheRead", 7)])] =
      [("m", [("input", 5), ("output", 6), ("cacheRead", 7)])] ∧
    modelFieldLookup (mergeModelPrices
      [("m", [("input", 1), ("output", 2)])]
      [("m", [("input", 10)])]
      [("m", [("input", 5), ("output", 6), ("cacheRead", 7)])]) "m" "input" =
      some 10 ∧
    modelFieldLookup (mergeModelPrices
      [("m", [("input", 1), ("output", 2)])]
      [("m", [("input", 10)])]
      [("m", [("input", 5), ("output", 6), ("cacheRead", 7)])]) "m" "output" =
      some 2 ∧
    modelFieldLookup (mergeModelPrices
      [("m", [("input", 1), ("output", 2)])]
      [("m", [("input", 10)])]
      [("m", [("input", 5), ("output", 6), ("cacheRead", 7)])]) "m" "cacheRead" =
      some 7 := by
  have h := c6_merge_model_prices
    [("m", [("input", 1), ("output", 2)])]
    [("m", [("input", 10)])]
    [("m", [("input", 5), ("output", 6), ("cacheRead", 7)])]
    (by constructor <;> decide) (by constructor <;> decide)
    (by constructor <;> decide)
  have h2 := c6_merge_model_prices
    ([] : List (String × List (String × Nat)))
    ([] : List (String × List (String × Nat)))
    [("m", [("input", 5), ("output", 6), ("cacheRead", 7)])]
    (by constructor <;> decide) (by constructor <;> decide)
    (by constructor <;> decide)
  refine ⟨h.1, h2.2.1, ?_, ?_, ?_⟩
  · exact h.2.2.2.1 "m" "input" 10 1 5 (by decide) (by decide) (by decide)
  · exact h.2.2.2.2 "m" "output" 2 6 (by decide) (by decide) (by decide)
  · rw [h.2.2.1 "m" "cacheRead"]
    decide

end OCMonitor
